import Mathlib

/-!
Shallow embedding of the ACO route-discovery engine (Go, `package main`):
types `FacetsValue`, `AllocatedTaskInfo`, `RouteDiscovery`, `Ant` and the
functions `NewRouteDiscovery`, `getTotalCities`, `generateDistanceMatrix`,
`InitiateOptimization`, `getPriorityMap`, `updateBest`, `updateTrails`,
`moveAnts`, `selectNextCity`, `calculateProbabilities`, `clearTrails`,
`setupAnts`, `newAnt`, `visitCity`, `calculateTourLength`, `Ant.clear`.

Modelling conventions:
* Go `float64` is modelled by `ℚ` (exact arithmetic); in `ℚ` a division by
  zero yields `0` where Go would yield `±Inf`/`NaN`; each theorem notes
  where this matters.
* Go `int64` city values are modelled by `Nat`: every city value the source
  constructs is a cast of a non-negative `int` (a loop index or an `Intn`
  result), so no information is lost.
* Slices indexed within bounds are modelled by total functions
  (`Nat → Nat → ℚ` matrices, `Nat → Bool` visited sets) or by `List` with
  `getD`/`set`; an out-of-range Go access would panic, and the code paths
  the claims touch stay in range (noted where relevant).
* The shared `*rand.Rand` generator is modelled by two abstract streams of
  draw results (one for `Intn`, one for `Float64`) with cursor indices;
  theorems quantify over the streams.
* A Go `panic` is modelled by `Option.none`, threaded through the callers.
-/

/-- A square matrix, total function model of a Go `[][]float64` slice. -/
def Mat : Type := Nat → Nat → ℚ

/-- Write one matrix entry (functional update of a Go `m[i][j] = v`). -/
def setM (m : Mat) (i j : Nat) (v : ℚ) : Mat :=
  fun a b => if a = i ∧ b = j then v else m a b

/-- Add to one matrix entry (a Go `m[i][j] += v`). -/
def addM (m : Mat) (i j : Nat) (v : ℚ) : Mat :=
  setM m i j (m i j + v)

/-- Write one entry of a probability vector (a Go `p[j] = v`). -/
def setP (p : Nat → ℚ) (j : Nat) (v : ℚ) : Nat → ℚ :=
  fun a => if a = j then v else p a

/-- Go `math.Pow`, restricted to the non-negative integer exponents this
engine actually uses (`alpha = 1.0`, `beta = 5.0`); at such exponents
`math.Pow` is iterated multiplication. -/
def qpow (x e : ℚ) : ℚ :=
  if e.den = 1 ∧ 0 ≤ e.num then x ^ e.num.toNat else 0

/-- The facet record of a task (source struct `FacetsValue`). -/
structure FacetsValue where
  Bandwidth : ℚ
  Latency : ℚ
  CPU : ℚ
  RetryLimit : Int
  Timeout : ℚ
deriving DecidableEq

/-- One schedulable task (source struct `AllocatedTaskInfo`; the opaque
`Data` pointer and the unused `dependantTaskId` field are omitted). -/
structure AllocatedTaskInfo where
  TaskID : Int
  FacetsValue : FacetsValue
deriving DecidableEq

/-- One ant agent (source struct `Ant`).  `trail` is a pre-sized slice of
city values, `visited` a membership slice, modelled as a total function. -/
structure Ant where
  trail : List Nat
  visited : Nat → Bool
  trailSize : Nat
  trailLength : ℚ
  tourLength : ℚ
  facetsValues : FacetsValue

/-- The shared random generator: abstract streams of `Intn` and `Float64`
draw results plus cursor indices.  `Intn n` returns the next int draw
reduced mod `n` (Go guarantees a value in `[0, n)`). -/
structure RandSrc where
  ints : Nat → Nat
  floats : Nat → ℚ
  ii : Nat
  fi : Nat

/-- Draw from `Intn n`.  (Go panics for `n ≤ 0`; the engine only calls this
with a positive argument on the paths the claims touch.) -/
def RandSrc.intn (r : RandSrc) (n : Nat) : Nat × RandSrc :=
  (r.ints r.ii % n, { r with ii := r.ii + 1 })

/-- Draw from `Float64` (a value in `[0,1)` in Go). -/
def RandSrc.float (r : RandSrc) : ℚ × RandSrc :=
  (r.floats r.fi, { r with fi := r.fi + 1 })

/-- The colony engine state (source struct `RouteDiscovery`). -/
structure RouteDiscovery where
  tasks : List AllocatedTaskInfo
  pheromones : Mat
  distances : Mat
  alpha : ℚ
  beta : ℚ
  initialPheromone : ℚ
  remainingFactor : ℚ
  q : ℚ
  randomFactor : ℚ
  maxIterations : Nat
  numberOfCities : Nat
  numberOfAnts : Nat
  antFactor : ℚ
  ants : List Ant
  random : RandSrc
  probabilities : Nat → ℚ
  currentIndex : Nat
  bestTourOrder : Option (List Nat)
  bestTourLength : ℚ

/-- Default facet record (zero value). -/
def dfltFacets : FacetsValue :=
  { Bandwidth := 0, Latency := 0, CPU := 0, RetryLimit := 0, Timeout := 0 }

/-- Default task (zero value), used only as the `getD` fallback. -/
def dfltTask : AllocatedTaskInfo := { TaskID := 0, FacetsValue := dfltFacets }

/-- Default ant (zero value), used only as the `getD` fallback. -/
def dfltAnt : Ant :=
  { trail := [], visited := fun _ => false, trailSize := 0,
    trailLength := 0, tourLength := 0, facetsValues := dfltFacets }

/-- Source `getTotalCities`: the number of distinct `TaskID`s (a Go
`map[int64]bool` used as a set). -/
def getTotalCities (tasks : List AllocatedTaskInfo) : Nat :=
  (tasks.map (fun t => t.TaskID)).dedup.length

/-- Source `generateDistanceMatrix`: for `i, j < numberOfCities`, the cost
entry is `0` on the diagonal and `tasks[i].FacetsValue.Latency` (the row
task, the tour's source city) off the diagonal. -/
def generateDistanceMatrix (rd : RouteDiscovery) : RouteDiscovery :=
  let d :=
    (List.range rd.numberOfCities).foldl (fun m i =>
      (List.range rd.numberOfCities).foldl (fun m j =>
        setM m i j
          (if i = j then 0 else (rd.tasks.getD i dfltTask).FacetsValue.Latency)) m)
      rd.distances
  { rd with distances := d }

/-- Source `clearTrails`: every pheromone entry in the `n × n` region is
reset to `initialPheromone`. -/
def clearTrails (rd : RouteDiscovery) : RouteDiscovery :=
  let ph :=
    (List.range rd.numberOfCities).foldl (fun m i =>
      (List.range rd.numberOfCities).foldl (fun m j =>
        setM m i j rd.initialPheromone) m)
      rd.pheromones
  { rd with pheromones := ph }

/-- Source `NewRouteDiscovery`: builds the engine with the hard-coded
parameters, sizes both matrices to the distinct-task count, fills the cost
matrix and resets pheromones.  The Go constructor cannot fail: it performs
no validation of `tasks` (an empty list yields a zero-city engine).  The
random source is passed in place of the time-seeded `rand.New`. -/
def initRouteDiscovery (tasks : List AllocatedTaskInfo) (random : RandSrc) :
    RouteDiscovery :=
  { tasks := tasks
    pheromones := fun _ _ => 0
    distances := fun _ _ => 0
    alpha := 1
    beta := 5
    initialPheromone := 1
    remainingFactor := 1/2
    q := 500
    randomFactor := 1/100
    maxIterations := 1000
    numberOfCities := getTotalCities tasks
    numberOfAnts := getTotalCities tasks
    antFactor := 4/5
    ants := []
    random := random
    probabilities := fun _ => 0
    currentIndex := 0
    bestTourOrder := none
    bestTourLength := 0 }

/-- Source `NewRouteDiscovery`, continued: sized matrices are zeroed by
`make`, then `generateDistanceMatrix` and `clearTrails` run. -/
def NewRouteDiscovery (tasks : List AllocatedTaskInfo) (random : RandSrc) :
    RouteDiscovery :=
  clearTrails (generateDistanceMatrix (initRouteDiscovery tasks random))

/-- Source `newAnt`: fresh ant with pre-sized trail and visited slices. -/
def newAnt (trailSize : Nat) (facetsValues : FacetsValue) : Ant :=
  { trail := List.replicate trailSize 0
    visited := fun _ => false
    trailSize := trailSize
    trailLength := 0
    tourLength := 0
    facetsValues := facetsValues }

/-- Source `Ant.clear`: marks the first `trailSize` cities unvisited. -/
def Ant.clear (ant : Ant) : Ant :=
  { ant with visited := fun i => if i < ant.trailSize then false else ant.visited i }

/-- Source `Ant.visitCity`: writes `city` at trail slot `currentIndex + 1`
and marks it visited.  `currentIndex` is an `Int` because `setupAnts`
passes `-1` for the starting city. -/
def visitCity (ant : Ant) (currentIndex : Int) (city : Nat) : Ant :=
  { ant with
      trail := ant.trail.set (currentIndex + 1).toNat city
      visited := fun j => if j = city then true else ant.visited j }

/-- Source `calculateTourLength`: the closing edge from the last trail city
back to the first, plus the edges along consecutive trail cities.  (This
function exists in the source but is never invoked by
`InitiateOptimization` or anything else.) -/
def calculateTourLength (distances : Mat) (ant : Ant) : Ant :=
  let closing := distances (ant.trail.getD (ant.trailSize - 1) 0) (ant.trail.getD 0 0)
  let total := (List.range (ant.trailSize - 1)).foldl
    (fun acc i => acc + distances (ant.trail.getD i 0) (ant.trail.getD (i + 1) 0))
    closing
  { ant with tourLength := total }

/-- The desirability score the source computes for an edge from city `i` to
city `l`: `Pow(pheromones[i][l], alpha) * Pow(1.0/distances[i][l]*CPU, beta)`. -/
def desirability (rd : RouteDiscovery) (ant : Ant) (i l : Nat) : ℚ :=
  qpow (rd.pheromones i l) rd.alpha *
    qpow (1 / rd.distances i l * ant.facetsValues.CPU) rd.beta

/-- Sum of the desirabilities of the unvisited cities: the `pheromone`
accumulator loop at the head of `calculateProbabilities`. -/
def pherSum (rd : RouteDiscovery) (ant : Ant) (i : Nat) : ℚ :=
  (List.range rd.numberOfCities).foldl
    (fun acc l => if ant.visited l then acc else acc + desirability rd ant i l) 0

/-- Source `calculateProbabilities`: `i` is the ant's current city
(`trail[currentIndex]`); visited cities get probability `0`, unvisited ones
their desirability divided by the summed desirability of all unvisited
cities. -/
def calculateProbabilities (rd : RouteDiscovery) (ant : Ant) : RouteDiscovery :=
  let i := ant.trail.getD rd.currentIndex 0
  let pheromone := pherSum rd ant i
  let probs :=
    (List.range rd.numberOfCities).foldl (fun p j =>
      setP p j (if ant.visited j then 0 else desirability rd ant i j / pheromone))
      rd.probabilities
  { rd with probabilities := probs }

/-- The source's roulette loop in `selectNextCity`: running total of the
probability entries, returning the first index where the total reaches the
draw `r`; falls off the end (Go: `panic`) as `none`. -/
def rouletteGo (p : Nat → ℚ) (r : ℚ) : Nat → Nat → ℚ → Option Nat
  | 0, _, _ => none
  | fuel + 1, i, total =>
    let total' := total + p i
    if r ≤ total' then some i else rouletteGo p r fuel (i + 1) total'

/-- The second half of the source `selectNextCity` (the code after the
exploration block): `calculateProbabilities`, one `Float64` draw `r`, and
the cumulative scan over `probabilities`.  `none` models the
`panic("There are no other cities")`. -/
def rouletteSelect (rd : RouteDiscovery) (ant : Ant) : Option (Nat × RouteDiscovery) :=
  let rd2 := calculateProbabilities rd ant
  let ri := rd2.random.float
  let rd3 := { rd2 with random := ri.2 }
  match rouletteGo rd3.probabilities ri.1 rd3.numberOfCities 0 0 with
  | some i => some (i, rd3)
  | none => none

/-- Source `selectNextCity`.  Draw order follows the Go code: first
`t := Intn(numberOfCities - currentIndex)`, then the exploration coin
`Float64() < randomFactor`; the exploration scan returns `t` only when
`t` is an unvisited city index, otherwise control falls through to the
roulette half. -/
def selectNextCity (rd : RouteDiscovery) (ant : Ant) : Option (Nat × RouteDiscovery) :=
  let ti := rd.random.intn (rd.numberOfCities - rd.currentIndex)
  let t := ti.1
  let ci := ti.2.float
  let coin := ci.1
  let rd1 := { rd with random := ci.2 }
  match (if coin < rd1.randomFactor then
          (List.range rd1.numberOfCities).find? (fun i => i == t && !ant.visited i)
         else none) with
  | some i => some (i, rd1)
  | none => rouletteSelect rd1 ant

/-- One ant's move inside the `moveAnts` inner loop: select the next city
for the ant at `idx`, then `visitCity` it at slot `currentIndex + 1`. -/
def moveOneAnt (rd : RouteDiscovery) (idx : Nat) : Option RouteDiscovery :=
  let ant := rd.ants.getD idx dfltAnt
  (selectNextCity rd ant).map (fun ci =>
    { ci.2 with ants := ci.2.ants.set idx (visitCity ant rd.currentIndex ci.1) })

/-- The `for _, ant := range rd.ants` inner loop of `moveAnts`: every ant
takes one step, sharing the single random source sequentially. -/
def moveAntsInner (rd : RouteDiscovery) : Option RouteDiscovery :=
  (List.range rd.ants.length).foldlM moveOneAnt rd

/-- One outer-loop pass of `moveAnts`: all ants step, then
`rd.currentIndex++`. -/
def moveAntsStep (rd : RouteDiscovery) : Option RouteDiscovery :=
  (moveAntsInner rd).map (fun rd => { rd with currentIndex := rd.currentIndex + 1 })

/-- Iterate `moveAntsStep` a fixed number of times. -/
def moveAntsLoop : Nat → RouteDiscovery → Option RouteDiscovery
  | 0, rd => some rd
  | k + 1, rd => (moveAntsStep rd).bind (moveAntsLoop k)

/-- Source `moveAnts`: the Go loop `for i := rd.currentIndex;
i < rd.numberOfCities-1; i++` increments `rd.currentIndex` once per pass,
so it runs exactly `numberOfCities - 1 - currentIndex` times (and not at
all once `currentIndex` has reached `numberOfCities - 1`). -/
def moveAnts (rd : RouteDiscovery) : Option RouteDiscovery :=
  moveAntsLoop (rd.numberOfCities - 1 - rd.currentIndex) rd

/-- The per-ant reinforcement body of `updateTrails` (`n` the city count,
`qv` the engine constant `q`): `contribution = q / tourLength` is added on
each directed edge of the ant's closed tour — consecutive trail entries
plus the closing edge. -/
def reinforce (n : Nat) (qv : ℚ) (m : Mat) (ant : Ant) : Mat :=
  let contribution := qv / ant.tourLength
  let m := (List.range (n - 1)).foldl (fun m i =>
    addM m (ant.trail.getD i 0) (ant.trail.getD (i + 1) 0) contribution) m
  addM m (ant.trail.getD (n - 1) 0) (ant.trail.getD 0 0) contribution

/-- Source `updateTrails`: evaporation multiplies every entry of the
`n × n` pheromone region by `remainingFactor`; then every ant reinforces
its tour edges.  In `ℚ` the division `q / 0` gives `0` where Go gives
`+Inf`. -/
def updateTrails (rd : RouteDiscovery) : RouteDiscovery :=
  let ph := (List.range rd.numberOfCities).foldl (fun m i =>
    (List.range rd.numberOfCities).foldl (fun m j =>
      setM m i j (m i j * rd.remainingFactor)) m) rd.pheromones
  let ph := rd.ants.foldl (reinforce rd.numberOfCities rd.q) ph
  { rd with pheromones := ph }

/-- One comparison of the `updateBest` loop: an ant whose `tourLength` is
strictly below the running best replaces the best tour (the Go code deep
copies `ant.trail`; with value semantics the copy is the list itself). -/
def bestStep (rd : RouteDiscovery) (ant : Ant) : RouteDiscovery :=
  if ant.tourLength < rd.bestTourLength then
    { rd with bestTourLength := ant.tourLength, bestTourOrder := some ant.trail }
  else rd

/-- The comparison loop of `updateBest` over all ants. -/
def updateBestFold (rd : RouteDiscovery) : RouteDiscovery :=
  rd.ants.foldl bestStep rd

/-- Source `updateBest`: when no best tour is recorded yet it is seeded
from `rd.ants[0]` (a Go panic — `none` — on an empty ant slice), then every
ant is compared against the running best. -/
def updateBest (rd : RouteDiscovery) : Option RouteDiscovery :=
  match rd.bestTourOrder with
  | none =>
    match rd.ants with
    | [] => none
    | a0 :: _ =>
      some (updateBestFold
        { rd with bestTourOrder := some a0.trail, bestTourLength := a0.tourLength })
  | some _ => some (updateBestFold rd)

/-- Source `setupAnts`: create `numberOfAnts` ants, ant `i` carrying
`tasks[i].FacetsValue`; then each ant is cleared and visits one starting
city drawn by `Intn(numberOfCities)`; finally `currentIndex` is reset
to `0`. -/
def setupAnts (rd : RouteDiscovery) : RouteDiscovery :=
  let fresh := (List.range rd.numberOfAnts).map (fun i =>
    newAnt rd.numberOfCities (rd.tasks.getD i dfltTask).FacetsValue)
  let placed := fresh.foldl (fun acc ant =>
    let ant := Ant.clear ant
    let ci := acc.2.intn rd.numberOfCities
    (acc.1 ++ [visitCity ant (-1) ci.1], ci.2)) (([] : List Ant), rd.random)
  { rd with ants := placed.1, random := placed.2, currentIndex := 0 }

/-- The body of the `InitiateOptimization` iteration loop:
`moveAnts`, `updateTrails`, `updateBest`.  No step of the loop computes any
ant's `tourLength`. -/
def iterBody (rd : RouteDiscovery) : Option RouteDiscovery :=
  (moveAnts rd).bind (fun rd => updateBest (updateTrails rd))

/-- Iterate `iterBody` a given number of times. -/
def runLoop : Nat → RouteDiscovery → Option RouteDiscovery
  | 0, rd => some rd
  | m + 1, rd => (iterBody rd).bind (runLoop m)

/-- Source `InitiateOptimization`: `setupAnts`, `clearTrails`, then
`maxIterations` passes of the loop body. -/
def InitiateOptimization (rd : RouteDiscovery) : Option RouteDiscovery :=
  runLoop rd.maxIterations (clearTrails (setupAnts rd))

/-- Overwrite-insert into an association list, Go `map[int64]int`
assignment semantics (`m[k] = v`). -/
def mapInsert (m : List (Nat × Nat)) (k v : Nat) : List (Nat × Nat) :=
  if m.any (fun p => p.1 == k) then
    m.map (fun p => if p.1 == k then (k, v) else p)
  else m ++ [(k, v)]

/-- Source `getPriorityMap`: walks `bestTourOrder` (a nil slice — modelled
`none` — iterates zero times) assigning priorities `1, 2, ...` to the trail
values in order. -/
def getPriorityMap (rd : RouteDiscovery) : List (Nat × Nat) :=
  ((rd.bestTourOrder.getD []).foldl (fun acc taskID =>
    (mapInsert acc.1 taskID acc.2, acc.2 + 1)) (([] : List (Nat × Nat)), 1)).1

/-- Lookup in the association-list model of a Go map. -/
def mapLookup (m : List (Nat × Nat)) (k : Nat) : Option Nat :=
  (m.find? (fun p => p.1 == k)).map (fun p => p.2)

/-- Build a concrete task: identifier plus latency and CPU facets. -/
def mkTask (id : Int) (lat cpu : ℚ) : AllocatedTaskInfo :=
  { TaskID := id
    FacetsValue :=
      { Bandwidth := 1, Latency := lat, CPU := cpu, RetryLimit := 0, Timeout := 0 } }

/-- Two tasks with latencies 3 and 4. -/
def exTasks2 : List AllocatedTaskInfo := [mkTask 0 3 1, mkTask 1 4 1]

/-- Two tasks whose CPU facets differ. -/
def exTasks2F : List AllocatedTaskInfo := [mkTask 0 3 1, mkTask 1 4 2]

/-- Three tasks with latencies 2, 3, 4. -/
def exTasks3 : List AllocatedTaskInfo := [mkTask 0 2 1, mkTask 1 3 1, mkTask 2 4 1]

/-- Three tasks with unit latency and CPU (used for the selection claims:
with these facets the desirability of a city reduces to its pheromone). -/
def exTasksU : List AllocatedTaskInfo := [mkTask 0 1 1, mkTask 1 1 1, mkTask 2 1 1]

/-- A random source whose `Intn` draws are all `0` and whose `Float64`
draws are all `1/2`. -/
def rndHalf : RandSrc :=
  { ints := fun _ => 0, floats := fun _ => 1/2, ii := 0, fi := 0 }

/-- A random source whose roulette draws (the odd `Float64` positions in
the draw sequence of a run from `setupAnts`) are exactly `0` — a value
Go's `Float64` can return, its range being `[0,1)`. -/
def rndZeroR : RandSrc :=
  { ints := fun _ => 0
    floats := fun k => if k % 2 = 0 then 1/2 else 0
    ii := 0, fi := 0 }

/-- A random source whose first `Float64` draw (the exploration coin) is
`1/200 < randomFactor`, all later draws `1/2`. -/
def rndCoin : RandSrc :=
  { ints := fun _ => 0
    floats := fun k => if k = 0 then 1/200 else 1/2
    ii := 0, fi := 0 }

/-- The two-city engine right before the iteration loop of
`InitiateOptimization`. -/
def st2 : RouteDiscovery := clearTrails (setupAnts (NewRouteDiscovery exTasks2 rndHalf))

/-- The three-city engine, zero roulette draws, right before the loop. -/
def st3z : RouteDiscovery := clearTrails (setupAnts (NewRouteDiscovery exTasks3 rndZeroR))

/-- Three-city engine with unit facets, exploration coin below
`randomFactor`, whose single ant under scrutiny sits on visited city 0. -/
def stU : RouteDiscovery := clearTrails (setupAnts (NewRouteDiscovery exTasksU rndCoin))

/-- `stU` with the pheromone edge 0→1 raised to 3. -/
def stUA : RouteDiscovery := { stU with pheromones := setM stU.pheromones 0 1 3 }

/-- `stU` with the pheromone edge 0→2 raised to 3. -/
def stUB : RouteDiscovery := { stU with pheromones := setM stU.pheromones 0 2 3 }

/-- The construction invariant of one ant after `k` selection steps in an
`n`-city engine: the trail slice has its allocated length, the first
`k + 1` trail entries are distinct city indices below `n`, and the
`visited` membership set holds exactly those entries. -/
def AntInv (n k : Nat) (ant : Ant) : Prop :=
  ant.trail.length = n ∧ ant.trailSize = n ∧
  (ant.trail.take (k + 1)).Nodup ∧
  (∀ x ∈ ant.trail.take (k + 1), x < n) ∧
  (∀ c : Nat, ant.visited c = true ↔ c ∈ ant.trail.take (k + 1))

/-- A completed trail that is a permutation of the city indices
`0 .. n-1`: full length, no duplicates, no omissions. -/
def completeTrailPerm (n : Nat) (ant : Ant) : Prop :=
  ant.trail.length = n ∧ ant.trail.Nodup ∧ ∀ c, c < n → c ∈ ant.trail

/-- The two-city state after the first iteration's `moveAnts` (used to
inspect the state `updateTrails` and `updateBest` read). -/
def st2m : RouteDiscovery := (moveAnts st2).getD (initRouteDiscovery [] rndHalf)

/-- The two-city engine after one full iteration. -/
def st2r1 : RouteDiscovery := (runLoop 1 st2).getD (initRouteDiscovery [] rndHalf)

/-- The two-city engine after two full iterations. -/
def st2r2 : RouteDiscovery := (runLoop 2 st2).getD (initRouteDiscovery [] rndHalf)

/-- The three-city state after `moveAnts` under zero roulette draws. -/
def st3zm : RouteDiscovery := (moveAnts st3z).getD (initRouteDiscovery [] rndHalf)

/-- A random source like `rndCoin` whose selection-time `Intn` draw is `1`
(the three setup draws are `0`). -/
def rndCoin1 : RandSrc :=
  { ints := fun k => if k < 3 then 0 else 1
    floats := fun k => if k = 0 then 1/200 else 1/2
    ii := 0, fi := 0 }

/-- Three-city engine with unit facets whose exploration coin fires and
whose exploration draw names the unvisited city 1. -/
def stUC : RouteDiscovery := clearTrails (setupAnts (NewRouteDiscovery exTasksU rndCoin1))

/-- The engine fields that one optimization iteration never writes: the
task list, the cost matrix and the configuration constants. -/
def sameConfig (rd rd' : RouteDiscovery) : Prop :=
  rd'.tasks = rd.tasks ∧ rd'.distances = rd.distances ∧ rd'.alpha = rd.alpha ∧
  rd'.beta = rd.beta ∧ rd'.initialPheromone = rd.initialPheromone ∧
  rd'.remainingFactor = rd.remainingFactor ∧ rd'.q = rd.q ∧
  rd'.randomFactor = rd.randomFactor ∧ rd'.maxIterations = rd.maxIterations ∧
  rd'.numberOfCities = rd.numberOfCities ∧ rd'.numberOfAnts = rd.numberOfAnts ∧
  rd'.antFactor = rd.antFactor

section LoopLemmas

/-- Reading one entry after `setM`. -/
theorem setM_eval (m : Mat) (i j : Nat) (v : ℚ) (a b : Nat) :
    setM m i j v a b = if a = i ∧ b = j then v else m a b := rfl

/-- Reading one entry after `setP`. -/
theorem setP_eval (p : Nat → ℚ) (j : Nat) (v : ℚ) (a : Nat) :
    setP p j v a = if a = j then v else p a := rfl

/-- A row loop writing values that do not depend on the matrix. -/
theorem foldl_setM_row (i : Nat) (f : Nat → Nat → ℚ) (k : Nat) (m0 : Mat) :
    ∀ a b, ((List.range k).foldl (fun m j => setM m i j (f i j)) m0) a b
      = if a = i ∧ b < k then f a b else m0 a b := by
  induction k with
  | zero => simp
  | succ k ih =>
    intro a b
    simp only [List.range_succ, List.foldl_append, List.foldl_cons, List.foldl_nil]
    rw [setM_eval, ih]
    by_cases ha : a = i
    · subst ha
      by_cases hb : b = k
      · subst hb; simp
      · by_cases hb2 : b < k
        · simp [hb, hb2, Nat.lt_succ_of_lt hb2]
        · have hb3 : ¬b < k + 1 := by omega
          simp [hb, hb2, hb3]
    · simp [ha]

/-- The full double loop writing values that do not depend on the matrix
(`generateDistanceMatrix`, `clearTrails`). -/
theorem foldl_setM_sq (f : Nat → Nat → ℚ) (kk n : Nat) (m0 : Mat) :
    ∀ a b, ((List.range kk).foldl (fun m i =>
        (List.range n).foldl (fun m j => setM m i j (f i j)) m) m0) a b
      = if a < kk ∧ b < n then f a b else m0 a b := by
  induction kk with
  | zero => simp
  | succ kk ih =>
    intro a b
    simp only [List.range_succ, List.foldl_append, List.foldl_cons, List.foldl_nil]
    rw [foldl_setM_row, ih]
    by_cases ha : a = kk
    · subst ha
      have h1 : ¬a < a := Nat.lt_irrefl a
      by_cases hb : b < n <;> simp [h1, hb, Nat.lt_succ_self]
    · by_cases ha2 : a < kk
      · simp [ha, ha2, Nat.lt_succ_of_lt ha2]
      · have ha3 : ¬a < kk + 1 := by omega
        simp [ha, ha2, ha3]

/-- A row loop of the evaporation kind: each entry is written once, from
its own previous value. -/
theorem foldl_mulM_row (i : Nat) (rf : ℚ) (k : Nat) (m0 : Mat) :
    ∀ a b, ((List.range k).foldl (fun m j => setM m i j (m i j * rf)) m0) a b
      = if a = i ∧ b < k then m0 a b * rf else m0 a b := by
  induction k with
  | zero => simp
  | succ k ih =>
    intro a b
    simp only [List.range_succ, List.foldl_append, List.foldl_cons, List.foldl_nil]
    rw [setM_eval, ih, ih]
    by_cases ha : a = i
    · subst ha
      by_cases hb : b = k
      · subst hb; simp
      · by_cases hb2 : b < k
        · simp [hb, hb2, Nat.lt_succ_of_lt hb2]
        · have hb3 : ¬b < k + 1 := by omega
          simp [hb, hb2, hb3]
    · simp [ha]

/-- The full evaporation double loop of `updateTrails`. -/
theorem foldl_mulM_sq (rf : ℚ) (kk n : Nat) (m0 : Mat) :
    ∀ a b, ((List.range kk).foldl (fun m i =>
        (List.range n).foldl (fun m j => setM m i j (m i j * rf)) m) m0) a b
      = if a < kk ∧ b < n then m0 a b * rf else m0 a b := by
  induction kk with
  | zero => simp
  | succ kk ih =>
    intro a b
    simp only [List.range_succ, List.foldl_append, List.foldl_cons, List.foldl_nil]
    rw [foldl_mulM_row]
    by_cases ha : a = kk
    · subst ha
      have h1 : ¬a < a := Nat.lt_irrefl a
      by_cases hb : b < n <;> simp [h1, hb, Nat.lt_succ_self, ih]
    · by_cases ha2 : a < kk
      · simp [ha, ha2, Nat.lt_succ_of_lt ha2, ih]
      · have ha3 : ¬a < kk + 1 := by omega
        simp [ha, ha2, ha3, ih]

/-- A probability-vector loop writing values that do not depend on the
vector (`calculateProbabilities`). -/
theorem foldl_setP_eval (h : Nat → ℚ) (k : Nat) (p0 : Nat → ℚ) :
    ∀ a, ((List.range k).foldl (fun p j => setP p j (h j)) p0) a
      = if a < k then h a else p0 a := by
  induction k with
  | zero => simp
  | succ k ih =>
    intro a
    simp only [List.range_succ, List.foldl_append, List.foldl_cons, List.foldl_nil]
    rw [setP_eval, ih]
    by_cases ha : a = k
    · subst ha; simp
    · by_cases ha2 : a < k
      · simp [ha, ha2, Nat.lt_succ_of_lt ha2]
      · have ha3 : ¬a < k + 1 := by omega
        simp [ha, ha2, ha3]

end LoopLemmas

section ListLemmas

/-- Writing at or beyond `k` does not change the first `k` entries. -/
theorem take_set_of_le {α : Type} (l : List α) (m k : Nat) (a : α) (h : k ≤ m) :
    (l.set m a).take k = l.take k := by
  induction l generalizing m k with
  | nil => simp
  | cons x xs ih =>
    cases m with
    | zero =>
      cases k with
      | zero => simp
      | succ k => omega
    | succ m =>
      cases k with
      | zero => simp
      | succ k => simp [List.set, List.take_succ_cons, ih _ _ (Nat.le_of_succ_le_succ h)]

/-- Writing at `m` extends the `m`-entry prefix by the written value. -/
theorem take_set_succ {α : Type} (l : List α) (m : Nat) (a : α) (h : m < l.length) :
    (l.set m a).take (m + 1) = l.take m ++ [a] := by
  induction l generalizing m with
  | nil => simp at h
  | cons x xs ih =>
    cases m with
    | zero => simp
    | succ m => simp_all [List.set, List.take_succ_cons]

/-- `getD` after `set`, in-range case. -/
theorem getD_set {α : Type} (l : List α) (i j : Nat) (v d : α) (h : i < l.length) :
    (l.set i v).getD j d = if i = j then v else l.getD j d := by
  simp only [List.getD_eq_getElem?_getD, List.getElem?_set]
  split <;> simp_all [List.getElem?_eq_getElem]

end ListLemmas

section SelectionLemmas

/-- The roulette loop only answers an index with strictly positive
probability (when the draw exceeds the running total so far), and the
index lies within the scanned window. -/
theorem rouletteGo_pos (p : Nat → ℚ) (r : ℚ) :
    ∀ (fuel i : Nat) (total : ℚ) (k : Nat),
      rouletteGo p r fuel i total = some k → total < r →
      k < i + fuel ∧ 0 < p k := by
  intro fuel
  induction fuel with
  | zero => intro i total k h; simp [rouletteGo] at h
  | succ fuel ih =>
    intro i total k h hlt
    rw [rouletteGo] at h
    by_cases hr : r ≤ total + p i
    · rw [if_pos hr] at h
      injection h with h2
      subst h2
      refine ⟨by omega, ?_⟩
      have h3 : total < total + p i := lt_of_lt_of_le hlt hr
      linarith
    · rw [if_neg hr] at h
      have h4 := ih (i + 1) (total + p i) k h (lt_of_not_le hr)
      exact ⟨by omega, h4.2⟩

/-- Reading the probability vector after `calculateProbabilities`: visited
cities get `0`, unvisited ones their normalized desirability, and entries
beyond the city count are untouched. -/
theorem calcProb_probabilities (rd : RouteDiscovery) (ant : Ant) (a : Nat) :
    (calculateProbabilities rd ant).probabilities a
      = if a < rd.numberOfCities then
          (if ant.visited a then 0
           else desirability rd ant (ant.trail.getD rd.currentIndex 0) a /
                pherSum rd ant (ant.trail.getD rd.currentIndex 0))
        else rd.probabilities a := by
  show ((List.range rd.numberOfCities).foldl _ rd.probabilities) a = _
  rw [foldl_setP_eval]

/-- What a successful roulette half guarantees: an unvisited city index
below the city count; only the random cursors and the scratch probability
vector change.  The positivity hypothesis on the `Float64` stream rules
out a draw of exactly `0` (possible in Go, where `Float64` ranges over
`[0,1)`), which would let the scan stop on a zero-probability city. -/
theorem rouletteSelect_spec (rd : RouteDiscovery) (ant : Ant) (c : Nat)
    (rd' : RouteDiscovery)
    (hfl : ∀ k, 0 < rd.random.floats k)
    (h : rouletteSelect rd ant = some (c, rd')) :
    c < rd.numberOfCities ∧ ant.visited c = false ∧
    rd' = { rd with random := rd'.random, probabilities := rd'.probabilities } ∧
    rd'.random.ints = rd.random.ints ∧ rd'.random.floats = rd.random.floats := by
  rw [rouletteSelect] at h
  split at h
  case h_2 => exact absurd h (by simp)
  case h_1 i heq =>
    injection h with h2
    injection h2 with hc hrd
    subst hc
    subst hrd
    have hr0 : (0 : ℚ) < (calculateProbabilities rd ant).random.float.1 := hfl _
    have hpos := rouletteGo_pos _ _ _ _ _ _ heq hr0
    have hlt : i < rd.numberOfCities := by
      have h5 := hpos.1
      simpa [calculateProbabilities] using h5
    have hprob := hpos.2
    have hpp : ({ calculateProbabilities rd ant with
        random := (calculateProbabilities rd ant).random.float.2 } :
          RouteDiscovery).probabilities i
        = (calculateProbabilities rd ant).probabilities i := rfl
    rw [hpp, calcProb_probabilities] at hprob
    have hnv : ant.visited i = false := by
      by_contra hv
      rw [Bool.not_eq_false] at hv
      simp [hlt, hv] at hprob
    exact ⟨hlt, hnv, rfl, rfl, rfl⟩

/-- What a successful `selectNextCity` guarantees: the returned city is an
unvisited index below the city count, and the engine is unchanged except
for the advanced random cursors and the scratch probability vector. -/
theorem selectNextCity_spec (rd : RouteDiscovery) (ant : Ant) (c : Nat)
    (rd' : RouteDiscovery)
    (hfl : ∀ k, 0 < rd.random.floats k)
    (h : selectNextCity rd ant = some (c, rd')) :
    c < rd.numberOfCities ∧ ant.visited c = false ∧
    rd' = { rd with random := rd'.random, probabilities := rd'.probabilities } ∧
    rd'.random.ints = rd.random.ints ∧ rd'.random.floats = rd.random.floats := by
  rw [selectNextCity] at h
  split at h
  case h_1 i heq =>
    injection h with h2
    injection h2 with hc hrd
    subst hc
    subst hrd
    split at heq
    case isTrue =>
      have hmem := List.mem_of_find?_eq_some heq
      have hp := List.find?_some heq
      simp only [Bool.and_eq_true, Bool.not_eq_true', beq_iff_eq] at hp
      exact ⟨by simpa using hmem, hp.2, rfl, rfl, rfl⟩
    case isFalse => exact absurd heq (by simp)
  case h_2 heq =>
    have hfl1 : ∀ k, 0 <
        ({ rd with random :=
            (rd.random.intn (rd.numberOfCities - rd.currentIndex)).2.float.2 } :
          RouteDiscovery).random.floats k := hfl
    have hs := rouletteSelect_spec _ _ _ _ hfl1 h
    exact ⟨hs.1, hs.2.1, hs.2.2.1, hs.2.2.2.1, hs.2.2.2.2⟩

end SelectionLemmas

section InvariantLemmas

/-- Visiting an unvisited in-range city at step `k` extends the ant
invariant by one step. -/
theorem visitCity_inv (n k : Nat) (ant : Ant) (c : Nat)
    (hinv : AntInv n k ant) (hk : k + 1 < n) (hc : c < n)
    (hnv : ant.visited c = false) :
    AntInv n (k + 1) (visitCity ant (k : Int) c) := by
  obtain ⟨hlen, hsize, hnd, hxlt, hvis⟩ := hinv
  have hidx : ((k : Int) + 1).toNat = k + 1 := by omega
  have hkl : k + 1 < ant.trail.length := by omega
  have hcm : c ∉ ant.trail.take (k + 1) := by
    intro hmem
    rw [← hvis c] at hmem
    rw [hnv] at hmem
    exact Bool.false_ne_true hmem
  have htk : (visitCity ant (k : Int) c).trail.take (k + 1 + 1)
      = ant.trail.take (k + 1) ++ [c] := by
    show (ant.trail.set ((k : Int) + 1).toNat c).take (k + 1 + 1) = _
    rw [hidx]
    exact take_set_succ ant.trail (k + 1) c hkl
  refine ⟨?_, hsize, ?_, ?_, ?_⟩
  · show (ant.trail.set ((k : Int) + 1).toNat c).length = n
    rw [List.length_set, hlen]
  · rw [htk]
    rw [List.nodup_append]
    exact ⟨hnd, List.nodup_singleton c, by
      intro a ha hb
      rw [List.mem_singleton] at hb
      subst hb
      exact hcm ha⟩
  · rw [htk]
    intro x hx
    rw [List.mem_append, List.mem_singleton] at hx
    rcases hx with hx | hx
    · exact hxlt x hx
    · subst hx; exact hc
  · intro d
    rw [htk, List.mem_append, List.mem_singleton]
    show (if d = c then true else ant.visited d) = true ↔ _
    by_cases hd : d = c
    · subst hd; simp
    · rw [if_neg hd]
      rw [hvis d]
      simp [hd]

/-- One `moveOneAnt` call: the selected ant advances one invariant step,
every other ant is untouched, and only `ants`, the random cursors and the
scratch probabilities change. -/
theorem moveOneAnt_inv (n k : Nat) (rd rd2 : RouteDiscovery) (idx : Nat)
    (hidx : idx < rd.ants.length)
    (hant : AntInv n k (rd.ants.getD idx dfltAnt))
    (hci : rd.currentIndex = k) (hn : rd.numberOfCities = n)
    (hfl : ∀ t, 0 < rd.random.floats t) (hk : k + 1 < n)
    (h : moveOneAnt rd idx = some rd2) :
    rd2.ants.length = rd.ants.length ∧
    (∀ j, j ≠ idx → rd2.ants.getD j dfltAnt = rd.ants.getD j dfltAnt) ∧
    AntInv n (k + 1) (rd2.ants.getD idx dfltAnt) ∧
    rd2 = { rd with ants := rd2.ants, random := rd2.random, probabilities := rd2.probabilities } ∧
    rd2.random.floats = rd.random.floats := by
  rw [moveOneAnt] at h
  rcases hsel : selectNextCity rd (rd.ants.getD idx dfltAnt) with _ | cp
  · rw [hsel] at h; exact absurd h (by simp)
  · rw [hsel] at h
    obtain ⟨c, rdS⟩ := cp
    simp only [Option.map_some', Option.some.injEq] at h
    have hspec := selectNextCity_spec rd (rd.ants.getD idx dfltAnt) c rdS hfl hsel
    obtain ⟨hclt, hcnv, hshape, hints, hfloats⟩ := hspec
    subst h
    have hAnts : rdS.ants = rd.ants := by rw [hshape]
    constructor
    · simp [hAnts]
    refine ⟨?_, ?_, ?_, ?_⟩
    · intro j hj
      simp only [hAnts]
      rw [getD_set _ _ _ _ _ (hAnts ▸ hidx)]
      rw [if_neg (fun hh => hj hh.symm)]
    · simp only [hAnts]
      rw [getD_set _ _ _ _ _ (hAnts ▸ hidx)]
      rw [if_pos rfl, hci]
      exact visitCity_inv n k _ c hant hk (hn ▸ hclt) hcnv
    · rw [hshape]
    · rw [hfloats]
end InvariantLemmas

section MoveAntsLemmas

/-- The inner `for _, ant := range rd.ants` loop of `moveAnts`, processed
as a fold over a list of distinct ant indices: every pending ant advances
one invariant step; already-processed ants keep theirs. -/
theorem moveInner_fold_inv (n k : Nat) :
    ∀ (rem : List Nat) (rd rd' : RouteDiscovery),
      rem.Nodup →
      (∀ j ∈ rem, j < rd.ants.length) →
      (∀ j, j < rd.ants.length → j ∉ rem → AntInv n (k + 1) (rd.ants.getD j dfltAnt)) →
      (∀ j ∈ rem, AntInv n k (rd.ants.getD j dfltAnt)) →
      rd.currentIndex = k → rd.numberOfCities = n →
      (∀ t, 0 < rd.random.floats t) → k + 1 < n →
      rem.foldlM moveOneAnt rd = some rd' →
      rd'.ants.length = rd.ants.length ∧
      (∀ j, j < rd'.ants.length → AntInv n (k + 1) (rd'.ants.getD j dfltAnt)) ∧
      rd' = { rd with ants := rd'.ants, random := rd'.random, probabilities := rd'.probabilities } ∧
      rd'.random.floats = rd.random.floats := by
  intro rem
  induction rem with
  | nil =>
    intro rd rd' _ _ hgood _ hci hn hfl hk h
    rw [List.foldlM_nil] at h
    injection h with h2
    subst h2
    refine ⟨rfl, ?_, rfl, rfl⟩
    intro j hj
    exact hgood j hj (by simp)
  | cons idx rest ih =>
    intro rd rd' hnd hltl hgood hpend hci hn hfl hk h
    rw [List.foldlM_cons] at h
    rcases hmo : moveOneAnt rd idx with _ | rd2
    · rw [hmo] at h; exact absurd h (by simp)
    · rw [hmo] at h
      have hmi := moveOneAnt_inv n k rd rd2 idx
        (hltl idx (by simp)) (hpend idx (by simp)) hci hn hfl hk hmo
      obtain ⟨hlen2, hother, hinv2, hshape2, hfl2⟩ := hmi
      have hnr : idx ∉ rest := (List.nodup_cons.mp hnd).1
      have hih := ih rd2 rd' (List.nodup_cons.mp hnd).2
        (fun j hj => by rw [hlen2]; exact hltl j (by simp [hj]))
        (fun j hj hjn => by
          by_cases hji : j = idx
          · subst hji; exact hinv2
          · rw [hother j hji]
            exact hgood j (by rwa [hlen2] at hj) (by simp [hji, hjn]))
        (fun j hj => by
          have hji : j ≠ idx := fun hh => hnr (hh ▸ hj)
          rw [hother j hji]
          exact hpend j (by simp [hj]))
        (by rw [hshape2]; exact hci) (by rw [hshape2]; exact hn)
        (by rw [hfl2]; exact hfl) hk h
      obtain ⟨hlen', hinv', hshape', hfl'⟩ := hih
      refine ⟨by rw [hlen', hlen2], hinv', ?_, by rw [hfl', hfl2]⟩
      rw [hshape2] at hshape'
      exact hshape'

/-- One outer pass of `moveAnts`: every ant advances one step and
`currentIndex` is incremented. -/
theorem moveAntsStep_inv (n k : Nat) (rd rd' : RouteDiscovery)
    (hants : ∀ j, j < rd.ants.length → AntInv n k (rd.ants.getD j dfltAnt))
    (hci : rd.currentIndex = k) (hn : rd.numberOfCities = n)
    (hfl : ∀ t, 0 < rd.random.floats t) (hk : k + 1 < n)
    (h : moveAntsStep rd = some rd') :
    rd'.ants.length = rd.ants.length ∧
    (∀ j, j < rd'.ants.length → AntInv n (k + 1) (rd'.ants.getD j dfltAnt)) ∧
    rd'.currentIndex = k + 1 ∧
    rd' = { rd with ants := rd'.ants, random := rd'.random, probabilities := rd'.probabilities, currentIndex := rd'.currentIndex } ∧
    rd'.random.floats = rd.random.floats := by
  rw [moveAntsStep] at h
  rcases hmi : moveAntsInner rd with _ | rdI
  · rw [hmi] at h; exact absurd h (by simp)
  · rw [hmi] at h
    simp only [Option.map_some', Option.some.injEq] at h
    rw [moveAntsInner] at hmi
    have hfold := moveInner_fold_inv n k (List.range rd.ants.length) rd rdI
      (List.nodup_range _) (fun j hj => List.mem_range.mp hj)
      (fun j hj hjn => absurd (List.mem_range.mpr hj) hjn)
      (fun j hj => hants j (List.mem_range.mp hj))
      hci hn hfl hk hmi
    obtain ⟨hlenI, hinvI, hshapeI, hflI⟩ := hfold
    subst h
    refine ⟨hlenI, hinvI, by rw [hshapeI, hci], ?_, hflI⟩
    rw [hshapeI]

/-- Iterating the outer pass: after `steps` passes from step index `k`,
every ant satisfies the invariant at `k + steps`. -/
theorem moveAntsLoop_inv (n : Nat) :
    ∀ (steps k : Nat) (rd rd' : RouteDiscovery),
      (∀ j, j < rd.ants.length → AntInv n k (rd.ants.getD j dfltAnt)) →
      rd.currentIndex = k → rd.numberOfCities = n →
      (∀ t, 0 < rd.random.floats t) → k + steps ≤ n - 1 → 1 ≤ n →
      moveAntsLoop steps rd = some rd' →
      rd'.ants.length = rd.ants.length ∧
      (∀ j, j < rd'.ants.length → AntInv n (k + steps) (rd'.ants.getD j dfltAnt)) ∧
      rd'.currentIndex = k + steps ∧
      rd' = { rd with ants := rd'.ants, random := rd'.random, probabilities := rd'.probabilities, currentIndex := rd'.currentIndex } ∧
      rd'.random.floats = rd.random.floats := by
  intro steps
  induction steps with
  | zero =>
    intro k rd rd' hants hci hn hfl hle hn1 h
    rw [moveAntsLoop] at h
    injection h with h2
    subst h2
    exact ⟨rfl, fun j hj => hants j hj, hci, rfl, rfl⟩
  | succ steps ih =>
    intro k rd rd' hants hci hn hfl hle hn1 h
    rw [moveAntsLoop] at h
    rcases hst : moveAntsStep rd with _ | rd1
    · rw [hst] at h; exact absurd h (by simp)
    · rw [hst] at h
      simp only [Option.some_bind] at h
      have hk1 : k + 1 < n := by omega
      have hstep := moveAntsStep_inv n k rd rd1 hants hci hn hfl hk1 hst
      obtain ⟨hlen1, hinv1, hci1, hshape1, hfl1⟩ := hstep
      have hih := ih (k + 1) rd1 rd'
        (fun j hj => hinv1 j hj) hci1 (by rw [hshape1]; exact hn)
        (by rw [hfl1]; exact hfl) (by omega) hn1 h
      obtain ⟨hlen', hinv', hci', hshape', hfl'⟩ := hih
      refine ⟨by rw [hlen', hlen1], ?_, by rw [hci']; omega, ?_, by rw [hfl', hfl1]⟩
      · intro j hj
        have := hinv' j hj
        have heq : k + 1 + steps = k + (steps + 1) := by omega
        rwa [heq] at this
      · rw [hshape1] at hshape'
        exact hshape'

/-- `moveAnts` from any step index `k ≤ n - 1`: on success every ant's
invariant reaches step `n - 1` — a full trail — and `currentIndex` ends
at `n - 1`. -/
theorem moveAnts_inv (n : Nat) (rd rd' : RouteDiscovery)
    (hants : ∀ j, j < rd.ants.length → AntInv n rd.currentIndex (rd.ants.getD j dfltAnt))
    (hn : rd.numberOfCities = n)
    (hfl : ∀ t, 0 < rd.random.floats t) (hci : rd.currentIndex ≤ n - 1) (hn1 : 1 ≤ n)
    (h : moveAnts rd = some rd') :
    rd'.ants.length = rd.ants.length ∧
    (∀ j, j < rd'.ants.length → AntInv n (n - 1) (rd'.ants.getD j dfltAnt)) ∧
    rd'.currentIndex = n - 1 ∧
    rd' = { rd with ants := rd'.ants, random := rd'.random, probabilities := rd'.probabilities, currentIndex := rd'.currentIndex } ∧
    rd'.random.floats = rd.random.floats := by
  rw [moveAnts, hn] at h
  have hk : rd.currentIndex + (n - 1 - rd.currentIndex) = n - 1 := by omega
  have hml := moveAntsLoop_inv n (n - 1 - rd.currentIndex) rd.currentIndex rd rd'
    hants rfl hn hfl (by omega) hn1 h
  obtain ⟨hlen', hinv', hci', hshape', hfl'⟩ := hml
  exact ⟨hlen', fun j hj => hk ▸ hinv' j hj, by rw [hci', hk], hshape', hfl'⟩

/-- An ant whose invariant has reached step `n - 1` has a complete
permutation trail: pigeonhole over the `n` distinct in-range entries. -/
theorem antInv_complete (n : Nat) (ant : Ant) (h : AntInv n (n - 1) ant) :
    completeTrailPerm n ant := by
  obtain ⟨hlen, _, hnd, hxlt, _⟩ := h
  have htake : ant.trail.take (n - 1 + 1) = ant.trail :=
    List.take_of_length_le (by omega)
  rw [htake] at hnd hxlt
  refine ⟨hlen, hnd, ?_⟩
  have hsub : ant.trail.toFinset ⊆ Finset.range n := by
    intro c hc
    rw [List.mem_toFinset] at hc
    rw [Finset.mem_range]
    exact hxlt c hc
  have hcard : Finset.range n ⊆ ant.trail.toFinset := by
    have heq := Finset.eq_of_subset_of_card_le hsub
      (by rw [Finset.card_range, List.toFinset_card_of_nodup hnd, hlen])
    rw [heq]
  intro c hc
  have := hcard (Finset.mem_range.mpr hc)
  rwa [List.mem_toFinset] at this

end MoveAntsLemmas

section ShapeLemmas

/-- Regardless of stream values, a successful `selectNextCity` changes only
the random cursors and the scratch probabilities. -/
theorem selectNextCity_shape (rd : RouteDiscovery) (ant : Ant) (c : Nat)
    (rd' : RouteDiscovery)
    (h : selectNextCity rd ant = some (c, rd')) :
    rd' = { rd with random := rd'.random, probabilities := rd'.probabilities } ∧
    rd'.random.floats = rd.random.floats ∧ rd'.random.ints = rd.random.ints := by
  rw [selectNextCity] at h
  split at h
  case h_1 i heq =>
    injection h with h2
    injection h2 with hc hrd
    subst hc
    subst hrd
    exact ⟨rfl, rfl, rfl⟩
  case h_2 heq =>
    rw [rouletteSelect] at h
    split at h
    case h_2 => exact absurd h (by simp)
    case h_1 i heq2 =>
      injection h with h2
      injection h2 with hc hrd
      subst hc
      subst hrd
      exact ⟨rfl, rfl, rfl⟩

/-- Regardless of stream values, `moveOneAnt` preserves every field but
`ants`, the random cursors and the probabilities; the ant list keeps its
length and every ant its `tourLength`. -/
theorem moveOneAnt_shape (rd rd2 : RouteDiscovery) (idx : Nat)
    (h : moveOneAnt rd idx = some rd2) :
    rd2 = { rd with ants := rd2.ants, random := rd2.random, probabilities := rd2.probabilities } ∧
    rd2.random.floats = rd.random.floats ∧
    rd2.ants.length = rd.ants.length ∧
    (∀ j d, (rd2.ants.getD j d).tourLength = (rd.ants.getD j d).tourLength) := by
  rw [moveOneAnt] at h
  rcases hsel : selectNextCity rd (rd.ants.getD idx dfltAnt) with _ | cp
  · rw [hsel] at h; exact absurd h (by simp)
  · rw [hsel] at h
    obtain ⟨c, rdS⟩ := cp
    simp only [Option.map_some', Option.some.injEq] at h
    obtain ⟨hshape, hfl, hints⟩ := selectNextCity_shape rd _ c rdS hsel
    subst h
    have hAnts : rdS.ants = rd.ants := by rw [hshape]
    refine ⟨by rw [hshape], by rw [hfl], by simp [hAnts], ?_⟩
    intro j d
    rw [hAnts]
    by_cases hj : idx < rd.ants.length
    · rw [getD_set _ _ _ _ _ hj]
      by_cases hji : idx = j
      · subst hji
        rw [if_pos rfl]
        show (rd.ants.getD idx dfltAnt).tourLength = (rd.ants.getD idx d).tourLength
        rw [List.getD_eq_getElem _ _ hj, List.getD_eq_getElem _ _ hj]
      · rw [if_neg hji]
    · rw [List.set_eq_of_length_le (by omega)]

/-- Regardless of stream values, the `moveAnts` passes preserve every field
but `ants`, `currentIndex`, the random cursors and the probabilities, and
preserve ant count and every ant's `tourLength`. -/
theorem moveAntsLoop_shape :
    ∀ (steps : Nat) (rd rd' : RouteDiscovery),
      moveAntsLoop steps rd = some rd' →
      rd' = { rd with ants := rd'.ants, random := rd'.random, probabilities := rd'.probabilities, currentIndex := rd'.currentIndex } ∧
      rd'.random.floats = rd.random.floats ∧
      rd'.ants.length = rd.ants.length ∧
      (∀ j d, (rd'.ants.getD j d).tourLength = (rd.ants.getD j d).tourLength) := by
  have hinner : ∀ (rem : List Nat) (rd rd' : RouteDiscovery),
      rem.foldlM moveOneAnt rd = some rd' →
      rd' = { rd with ants := rd'.ants, random := rd'.random, probabilities := rd'.probabilities } ∧
      rd'.random.floats = rd.random.floats ∧
      rd'.ants.length = rd.ants.length ∧
      (∀ j d, (rd'.ants.getD j d).tourLength = (rd.ants.getD j d).tourLength) := by
    intro rem
    induction rem with
    | nil =>
      intro rd rd' h
      rw [List.foldlM_nil] at h
      injection h with h2
      subst h2
      exact ⟨rfl, rfl, rfl, fun j d => rfl⟩
    | cons idx rest ih =>
      intro rd rd' h
      rw [List.foldlM_cons] at h
      rcases hmo : moveOneAnt rd idx with _ | rd2
      · rw [hmo] at h; exact absurd h (by simp)
      · rw [hmo] at h
        obtain ⟨hs2, hf2, hl2, ht2⟩ := moveOneAnt_shape rd rd2 idx hmo
        obtain ⟨hs', hf', hl', ht'⟩ := ih rd2 rd' h
        refine ⟨?_, by rw [hf', hf2], by rw [hl', hl2], fun j d => by rw [ht' j d, ht2 j d]⟩
        rw [hs2] at hs'
        exact hs'
  intro steps
  induction steps with
  | zero =>
    intro rd rd' h
    rw [moveAntsLoop] at h
    injection h with h2
    subst h2
    exact ⟨rfl, rfl, rfl, fun j d => rfl⟩
  | succ steps ih =>
    intro rd rd' h
    rw [moveAntsLoop] at h
    rcases hst : moveAntsStep rd with _ | rd1
    · rw [hst] at h; exact absurd h (by simp)
    · rw [hst] at h
      simp only [Option.some_bind] at h
      rw [moveAntsStep] at hst
      rcases hmi : moveAntsInner rd with _ | rdI
      · rw [hmi] at hst; exact absurd hst (by simp)
      · rw [hmi] at hst
        simp only [Option.map_some', Option.some.injEq] at hst
        rw [moveAntsInner] at hmi
        obtain ⟨hsI, hfI, hlI, htI⟩ := hinner _ rd rdI hmi
        subst hst
        obtain ⟨hs', hf', hl', ht'⟩ := ih _ rd' h
        refine ⟨?_, by rw [hf']; exact hfI, by rw [hl']; exact hlI,
          fun j d => by rw [ht' j d]; exact htI j d⟩
        rw [hsI] at hs'
        exact hs'

/-- The `updateBest` comparison loop changes only the best-tour fields. -/
theorem bestFold_shape :
    ∀ (l : List Ant) (rd : RouteDiscovery),
      l.foldl bestStep rd = { rd with bestTourOrder := (l.foldl bestStep rd).bestTourOrder, bestTourLength := (l.foldl bestStep rd).bestTourLength } := by
  intro l
  induction l with
  | nil => intro rd; rfl
  | cons a l ih =>
    intro rd
    rw [List.foldl_cons]
    have h := ih (bestStep rd a)
    rw [bestStep] at h ⊢
    by_cases hc : a.tourLength < rd.bestTourLength
    · rw [if_pos hc] at h ⊢
      exact h
    · rw [if_neg hc] at h ⊢
      exact h

/-- The running best length never increases along the comparison loop. -/
theorem bestFold_le :
    ∀ (l : List Ant) (rd : RouteDiscovery),
      (l.foldl bestStep rd).bestTourLength ≤ rd.bestTourLength := by
  intro l
  induction l with
  | nil => intro rd; exact le_refl _
  | cons a l ih =>
    intro rd
    rw [List.foldl_cons]
    refine le_trans (ih (bestStep rd a)) ?_
    rw [bestStep]
    by_cases hc : a.tourLength < rd.bestTourLength
    · rw [if_pos hc]
      exact le_of_lt hc
    · rw [if_neg hc]

/-- If the comparison loop changes the recorded best tour, some ant of the
list had a tour strictly shorter than the entry best length. -/
theorem bestFold_strict :
    ∀ (l : List Ant) (rd : RouteDiscovery),
      (l.foldl bestStep rd).bestTourOrder ≠ rd.bestTourOrder →
      ∃ a ∈ l, a.tourLength < rd.bestTourLength := by
  intro l
  induction l with
  | nil => intro rd h; exact absurd rfl h
  | cons a l ih =>
    intro rd h
    rw [List.foldl_cons] at h
    by_cases hc : a.tourLength < rd.bestTourLength
    · exact ⟨a, by simp, hc⟩
    · have hstep : bestStep rd a = rd := by rw [bestStep, if_neg hc]
      rw [hstep] at h
      obtain ⟨b, hb, hblt⟩ := ih rd h
      exact ⟨b, by simp [hb], hblt⟩

/-- The comparison loop keeps the best tour recorded once it exists. -/
theorem bestFold_some :
    ∀ (l : List Ant) (rd : RouteDiscovery) (o : List Nat),
      rd.bestTourOrder = some o →
      ∃ o', (l.foldl bestStep rd).bestTourOrder = some o' := by
  intro l
  induction l with
  | nil => intro rd o h; exact ⟨o, h⟩
  | cons a l ih =>
    intro rd o h
    rw [List.foldl_cons]
    rw [bestStep]
    by_cases hc : a.tourLength < rd.bestTourLength
    · rw [if_pos hc]
      exact ih _ a.trail rfl
    · rw [if_neg hc]
      exact ih _ o h

end ShapeLemmas

section IterationLemmas

/-- `sameConfig` is reflexive. -/
theorem sameConfig_refl (rd : RouteDiscovery) : sameConfig rd rd :=
  ⟨rfl, rfl, rfl, rfl, rfl, rfl, rfl, rfl, rfl, rfl, rfl, rfl⟩

/-- `sameConfig` composes. -/
theorem sameConfig_trans {r1 r2 r3 : RouteDiscovery}
    (h12 : sameConfig r1 r2) (h23 : sameConfig r2 r3) : sameConfig r1 r3 := by
  obtain ⟨a1, a2, a3, a4, a5, a6, a7, a8, a9, a10, a11, a12⟩ := h12
  obtain ⟨b1, b2, b3, b4, b5, b6, b7, b8, b9, b10, b11, b12⟩ := h23
  exact ⟨b1.trans a1, b2.trans a2, b3.trans a3, b4.trans a4, b5.trans a5,
    b6.trans a6, b7.trans a7, b8.trans a8, b9.trans a9, b10.trans a10,
    b11.trans a11, b12.trans a12⟩

/-- `updateBest` succeeds exactly by running the comparison loop (possibly
after seeding from ant 0), and changes only the best-tour fields. -/
theorem updateBest_shape (rd rd' : RouteDiscovery) (h : updateBest rd = some rd') :
    rd' = { rd with bestTourOrder := rd'.bestTourOrder, bestTourLength := rd'.bestTourLength } := by
  rw [updateBest] at h
  split at h
  case h_1 =>
    split at h
    case h_1 => exact absurd h (by simp)
    case h_2 a0 rest heq =>
      injection h with h2
      subst h2
      exact bestFold_shape _ _
  case h_2 o heq =>
    injection h with h2
    subst h2
    exact bestFold_shape _ _

/-- When a best tour is already recorded, `updateBest` keeps one recorded,
never increases its length, and replaces the tour only on the strength of
an ant strictly shorter than the entry best. -/
theorem updateBest_le (rd rd' : RouteDiscovery) (o : List Nat)
    (ho : rd.bestTourOrder = some o) (h : updateBest rd = some rd') :
    rd'.bestTourLength ≤ rd.bestTourLength ∧
    (∃ o', rd'.bestTourOrder = some o') ∧
    (rd'.bestTourOrder ≠ some o → ∃ a ∈ rd.ants, a.tourLength < rd.bestTourLength) := by
  rw [updateBest, ho] at h
  injection h with h2
  subst h2
  refine ⟨bestFold_le _ _, bestFold_some _ _ o ho, fun hne => ?_⟩
  exact bestFold_strict _ _ (by rw [ho]; exact hne)

/-- One loop iteration (`moveAnts`, `updateTrails`, `updateBest`) keeps the
configuration, the cost matrix, the ant count and every ant's `tourLength`,
and leaves the `Float64` stream function untouched. -/
theorem iterBody_shape (rd rd' : RouteDiscovery) (h : iterBody rd = some rd') :
    sameConfig rd rd' ∧
    rd'.random.floats = rd.random.floats ∧
    rd'.ants.length = rd.ants.length ∧
    (∀ j d, (rd'.ants.getD j d).tourLength = (rd.ants.getD j d).tourLength) := by
  rw [iterBody] at h
  rcases hmv : moveAnts rd with _ | rdM
  · rw [hmv] at h; exact absurd h (by simp)
  · rw [hmv] at h
    simp only [Option.some_bind] at h
    rw [moveAnts] at hmv
    obtain ⟨hsM, hfM, hlM, htM⟩ := moveAntsLoop_shape _ rd rdM hmv
    have hub := updateBest_shape _ _ h
    have hcfgM : sameConfig rd rdM := by
      rw [hsM]
      exact ⟨rfl, rfl, rfl, rfl, rfl, rfl, rfl, rfl, rfl, rfl, rfl, rfl⟩
    have hTants : (updateTrails rdM).ants = rdM.ants := rfl
    have hcfgT : sameConfig rdM (updateTrails rdM) :=
      ⟨rfl, rfl, rfl, rfl, rfl, rfl, rfl, rfl, rfl, rfl, rfl, rfl⟩
    have hcfgU : sameConfig (updateTrails rdM) rd' := by
      rw [hub]
      exact ⟨rfl, rfl, rfl, rfl, rfl, rfl, rfl, rfl, rfl, rfl, rfl, rfl⟩
    have hAnts' : rd'.ants = rdM.ants := by rw [hub]; rfl
    refine ⟨sameConfig_trans (sameConfig_trans hcfgM hcfgT) hcfgU, ?_, ?_, ?_⟩
    · have hrnd : rd'.random = rdM.random := by rw [hub]; rfl
      rw [hrnd, hfM]
    · rw [hAnts', hlM]
    · intro j d
      rw [hAnts', htM j d]

/-- `iterBody` leaves the pheromone matrix as `updateTrails` wrote it and
the best fields as `updateBest` wrote them; in particular the step from
`rd` to `rd'` factors through `updateTrails` on the post-`moveAnts` state.
This lemma extracts the pieces used by the non-negativity and best-tour
arguments. -/
theorem iterBody_factor (rd rd' : RouteDiscovery) (h : iterBody rd = some rd') :
    ∃ rdM : RouteDiscovery,
      moveAnts rd = some rdM ∧
      updateBest (updateTrails rdM) = some rd' ∧
      rdM.pheromones = rd.pheromones ∧
      rdM.bestTourOrder = rd.bestTourOrder ∧
      rdM.bestTourLength = rd.bestTourLength ∧
      rdM.ants.length = rd.ants.length ∧
      (∀ j d, (rdM.ants.getD j d).tourLength = (rd.ants.getD j d).tourLength) ∧
      rd'.pheromones = (updateTrails rdM).pheromones ∧
      rd'.ants = rdM.ants ∧
      rd'.currentIndex = rdM.currentIndex ∧
      rdM.q = rd.q ∧ rdM.remainingFactor = rd.remainingFactor ∧
      rdM.numberOfCities = rd.numberOfCities ∧
      rdM.random.floats = rd.random.floats := by
  rw [iterBody] at h
  rcases hmv : moveAnts rd with _ | rdM
  · rw [hmv] at h; exact absurd h (by simp)
  · rw [hmv] at h
    simp only [Option.some_bind] at h
    have hmvL := hmv
    rw [moveAnts] at hmvL
    obtain ⟨hsM, hfM, hlM, htM⟩ := moveAntsLoop_shape _ rd rdM hmvL
    have hub := updateBest_shape _ _ h
    exact ⟨rdM, rfl, h, by rw [hsM], by rw [hsM], by rw [hsM], hlM, htM,
      by rw [hub], by rw [hub]; rfl, by rw [hub]; rfl,
      by rw [hsM], by rw [hsM], by rw [hsM], hfM⟩

end IterationLemmas

section RunLoopLemmas

/-- Any number of loop iterations keeps the configuration, the cost
matrix, the `Float64` stream, the ant count and every ant's
`tourLength`. -/
theorem runLoop_shape :
    ∀ (m : Nat) (rd rd' : RouteDiscovery), runLoop m rd = some rd' →
      sameConfig rd rd' ∧ rd'.random.floats = rd.random.floats ∧
      rd'.ants.length = rd.ants.length ∧
      (∀ j d, (rd'.ants.getD j d).tourLength = (rd.ants.getD j d).tourLength) := by
  intro m
  induction m with
  | zero =>
    intro rd rd' h
    rw [runLoop] at h
    injection h with h2
    subst h2
    exact ⟨sameConfig_refl rd, rfl, rfl, fun j d => rfl⟩
  | succ m ih =>
    intro rd rd' h
    rw [runLoop] at h
    rcases hit : iterBody rd with _ | rd1
    · rw [hit] at h; exact absurd h (by simp)
    · rw [hit] at h
      simp only [Option.some_bind] at h
      obtain ⟨hc1, hf1, hl1, ht1⟩ := iterBody_shape rd rd1 hit
      obtain ⟨hc2, hf2, hl2, ht2⟩ := ih rd1 rd' h
      exact ⟨sameConfig_trans hc1 hc2, by rw [hf2, hf1], by rw [hl2, hl1],
        fun j d => by rw [ht2 j d, ht1 j d]⟩

/-- Pointwise `tourLength` preservation transports the all-zero fact. -/
theorem tourLength_zero_transport (l l' : List Ant) (hlen : l'.length = l.length)
    (hpt : ∀ j d, (l'.getD j d).tourLength = (l.getD j d).tourLength)
    (hz : ∀ a ∈ l, a.tourLength = 0) : ∀ a ∈ l', a.tourLength = 0 := by
  intro a ha
  obtain ⟨j, hj, hja⟩ := List.mem_iff_getElem.mp ha
  have hjl : j < l.length := by omega
  have h1 : a.tourLength = (l'.getD j dfltAnt).tourLength := by
    rw [List.getD_eq_getElem _ _ hj, hja]
  rw [h1, hpt j dfltAnt, List.getD_eq_getElem _ _ hjl]
  exact hz _ (List.getElem_mem hjl)

end RunLoopLemmas

section NonnegLemmas

/-- `addM` with a non-negative increment keeps a non-negative matrix. -/
theorem addM_nonneg (m : Mat) (i j : Nat) (v : ℚ)
    (hm : ∀ a b, 0 ≤ m a b) (hv : 0 ≤ v) : ∀ a b, 0 ≤ addM m i j v a b := by
  intro a b
  rw [addM, setM_eval]
  split
  · exact add_nonneg (hm i j) hv
  · exact hm a b

/-- A fold of non-negative `addM` increments keeps a non-negative
matrix. -/
theorem foldl_addM_nonneg (f g : Nat → Nat) (c : ℚ) (hc : 0 ≤ c) :
    ∀ (l : List Nat) (m : Mat), (∀ a b, 0 ≤ m a b) →
      ∀ a b, 0 ≤ (l.foldl (fun m i => addM m (f i) (g i) c) m) a b := by
  intro l
  induction l with
  | nil => intro m hm a b; exact hm a b
  | cons x l ih =>
    intro m hm a b
    rw [List.foldl_cons]
    exact ih _ (addM_nonneg m (f x) (g x) c hm hc) a b

/-- One ant's reinforcement keeps the pheromone matrix non-negative: the
contribution `q / tourLength` is non-negative whenever `q` and
`tourLength` are (in the engine's actual runs `tourLength` is always `0`,
so the `ℚ`-contribution is `0` where Go's would be `+Inf` — both
non-negative). -/
theorem reinforce_nonneg (n : Nat) (qv : ℚ) (m : Mat) (ant : Ant)
    (hm : ∀ a b, 0 ≤ m a b) (hq : 0 ≤ qv) (ht : 0 ≤ ant.tourLength) :
    ∀ a b, 0 ≤ reinforce n qv m ant a b := by
  intro a b
  rw [reinforce]
  have hc : 0 ≤ qv / ant.tourLength := div_nonneg hq ht
  exact addM_nonneg _ _ _ _
    (foldl_addM_nonneg _ _ _ hc (List.range (n - 1)) m hm) hc a b

/-- A fold of per-ant reinforcements keeps the matrix non-negative when
every ant's `tourLength` is non-negative. -/
theorem foldl_reinforce_nonneg (n : Nat) (qv : ℚ) (hq : 0 ≤ qv) :
    ∀ (l : List Ant) (m : Mat), (∀ ant ∈ l, 0 ≤ ant.tourLength) →
      (∀ a b, 0 ≤ m a b) → ∀ a b, 0 ≤ (l.foldl (reinforce n qv) m) a b := by
  intro l
  induction l with
  | nil => intro m _ hm a b; exact hm a b
  | cons a0 l ih =>
    intro m hz hm a b
    rw [List.foldl_cons]
    exact ih _ (fun ant hant => hz ant (List.mem_cons_of_mem _ hant))
      (reinforce_nonneg _ _ _ _ hm hq (hz a0 (List.mem_cons_self _ _))) a b

/-- All of `updateTrails` keeps the pheromone matrix non-negative. -/
theorem updateTrails_nonneg (rd : RouteDiscovery)
    (hph : ∀ a b, 0 ≤ rd.pheromones a b)
    (hrf : 0 ≤ rd.remainingFactor) (hq : 0 ≤ rd.q)
    (hz : ∀ ant ∈ rd.ants, 0 ≤ ant.tourLength) :
    ∀ a b, 0 ≤ (updateTrails rd).pheromones a b := by
  have hev : ∀ a b, 0 ≤
      ((List.range rd.numberOfCities).foldl (fun m i =>
        (List.range rd.numberOfCities).foldl (fun m j =>
          setM m i j (m i j * rd.remainingFactor)) m) rd.pheromones) a b := by
    intro a b
    rw [foldl_mulM_sq]
    split
    · exact mul_nonneg (hph a b) hrf
    · exact hph a b
  exact foldl_reinforce_nonneg rd.numberOfCities rd.q hq rd.ants _ hz hev

end NonnegLemmas

section SetupLemmas

/-- `getD` of a mapped range, in-range case. -/
theorem getD_map_range {α : Type} (f : Nat → α) (k t : Nat) (d : α) (h : t < k) :
    ((List.range k).map f).getD t d = f t := by
  rw [List.getD_eq_getElem?_getD, List.getElem?_map, List.getElem?_range h]
  rfl

/-- The placement fold of `setupAnts`, characterized: ant `t` of the batch
is cleared and visits `ints (ii + t) % n`, and the int cursor advances by
the batch size. -/
theorem setupAnts_fold (n : Nat) :
    ∀ (l acc : List Ant) (rs : RandSrc),
      (l.foldl (fun acc ant =>
          let ant := Ant.clear ant
          let ci := acc.2.intn n
          (acc.1 ++ [visitCity ant (-1) ci.1], ci.2)) (acc, rs))
      = (acc ++ (List.range l.length).map (fun t =>
            visitCity (Ant.clear (l.getD t dfltAnt)) (-1) (rs.ints (rs.ii + t) % n)),
         { rs with ii := rs.ii + l.length }) := by
  intro l
  induction l with
  | nil =>
    intro acc rs
    simp
  | cons a l ih =>
    intro acc rs
    rw [List.foldl_cons]
    rw [ih]
    simp only [RandSrc.intn]
    refine Prod.ext ?_ ?_
    · show acc ++ [visitCity (Ant.clear a) (-1) (rs.ints rs.ii % n)] ++
          List.map (fun t => visitCity (Ant.clear (l.getD t dfltAnt)) (-1)
            (rs.ints (rs.ii + 1 + t) % n)) (List.range l.length)
        = acc ++ List.map (fun t => visitCity (Ant.clear ((a :: l).getD t dfltAnt)) (-1)
            (rs.ints (rs.ii + t) % n)) (List.range (a :: l).length)
      rw [List.append_assoc, List.singleton_append]
      congr 1
      rw [List.length_cons, List.range_succ_eq_map, List.map_cons, List.map_map]
      congr 1
      refine List.map_congr_left ?_
      intro t ht
      simp only [Function.comp_apply, List.getD_cons_succ]
      have harith : rs.ii + 1 + t = rs.ii + (t + 1) := by omega
      rw [harith]
    · show ({ ints := rs.ints, floats := rs.floats, ii := rs.ii + 1 + l.length, fi := rs.fi } : RandSrc) = { ints := rs.ints, floats := rs.floats, ii := rs.ii + (a :: l).length, fi := rs.fi }
      have harith : rs.ii + 1 + l.length = rs.ii + (a :: l).length := by
        rw [List.length_cons]
        omega
      rw [harith]

/-- `setupAnts`, characterized: the population is rebuilt from scratch,
ant `t` carrying `tasks[t]`'s facets and visiting the city
`ints (ii + t) % numberOfCities`; `currentIndex` is reset to `0`; the
`Float64` stream is untouched. -/
theorem setupAnts_spec (rd : RouteDiscovery) :
    (setupAnts rd).ants = (List.range rd.numberOfAnts).map (fun t =>
      visitCity (Ant.clear (newAnt rd.numberOfCities
        ((rd.tasks.getD t dfltTask).FacetsValue))) (-1)
        (rd.random.ints (rd.random.ii + t) % rd.numberOfCities)) ∧
    (setupAnts rd).random.floats = rd.random.floats ∧
    (setupAnts rd).random.ints = rd.random.ints ∧
    (setupAnts rd).currentIndex = 0 ∧
    setupAnts rd = { rd with ants := (setupAnts rd).ants, random := (setupAnts rd).random, currentIndex := 0 } := by
  have hfold := setupAnts_fold rd.numberOfCities
    ((List.range rd.numberOfAnts).map (fun i =>
      newAnt rd.numberOfCities ((rd.tasks.getD i dfltTask).FacetsValue)))
    [] rd.random
  have hlen : ((List.range rd.numberOfAnts).map (fun i =>
      newAnt rd.numberOfCities ((rd.tasks.getD i dfltTask).FacetsValue))).length
      = rd.numberOfAnts := by
    rw [List.length_map, List.length_range]
  refine ⟨?_, ?_, ?_, rfl, ?_⟩
  · show (((List.range rd.numberOfAnts).map (fun i =>
        newAnt rd.numberOfCities ((rd.tasks.getD i dfltTask).FacetsValue))).foldl
          _ ([], rd.random)).1 = _
    rw [hfold]
    rw [List.nil_append, hlen]
    refine List.map_congr_left ?_
    intro t ht
    rw [List.mem_range] at ht
    rw [getD_map_range _ _ _ _ ht]
  · show ((((List.range rd.numberOfAnts).map (fun i =>
        newAnt rd.numberOfCities ((rd.tasks.getD i dfltTask).FacetsValue))).foldl
          _ ([], rd.random)).2).floats = rd.random.floats
    rw [hfold]
  · show ((((List.range rd.numberOfAnts).map (fun i =>
        newAnt rd.numberOfCities ((rd.tasks.getD i dfltTask).FacetsValue))).foldl
          _ ([], rd.random)).2).ints = rd.random.ints
    rw [hfold]
  · rfl

/-- A freshly placed ant establishes the construction invariant at step
`0`: exactly its start city is on the trail and visited. -/
theorem placedAnt_inv (n : Nat) (fc : FacetsValue) (c : Nat) (hc : c < n) :
    AntInv n 0 (visitCity (Ant.clear (newAnt n fc)) (-1) c) := by
  have hn0 : 0 < n := Nat.pos_of_ne_zero (by omega)
  have htoNat : ((-1 : Int) + 1).toNat = 0 := by decide
  have hlenrep : (List.replicate n (0 : Nat)).length = n := List.length_replicate ..
  have htrail : (visitCity (Ant.clear (newAnt n fc)) (-1) c).trail
      = (List.replicate n (0 : Nat)).set 0 c := by
    show (List.replicate n (0 : Nat)).set ((-1 : Int) + 1).toNat c = _
    rw [htoNat]
  have htake : ((List.replicate n (0 : Nat)).set 0 c).take 1 = [c] := by
    have := take_set_succ (List.replicate n (0 : Nat)) 0 c (by omega)
    simpa using this
  refine ⟨?_, rfl, ?_, ?_, ?_⟩
  · rw [htrail, List.length_set, hlenrep]
  · rw [htrail, htake]
    exact List.nodup_singleton c
  · rw [htrail, htake]
    intro x hx
    rw [List.mem_singleton] at hx
    subst hx
    exact hc
  · intro d
    rw [htrail, htake, List.mem_singleton]
    show (if d = c then true else Ant.visited _ d) = true ↔ d = c
    by_cases hd : d = c
    · simp [hd]
    · rw [if_neg hd]
      simp only [hd, iff_false]
      show ¬(if d < n then false else false) = true
      split <;> simp

/-- After `setupAnts`: the population size is `numberOfAnts`, and (when
there is at least one city) every ant satisfies the step-0 invariant, has
`tourLength = 0`, and carries the facets of its index's task. -/
theorem setupAnts_inv (rd : RouteDiscovery) :
    (setupAnts rd).ants.length = rd.numberOfAnts ∧
    (∀ a ∈ (setupAnts rd).ants, a.tourLength = 0) ∧
    (0 < rd.numberOfCities →
      ∀ j, j < (setupAnts rd).ants.length →
        AntInv rd.numberOfCities 0 ((setupAnts rd).ants.getD j dfltAnt) ∧
        ((setupAnts rd).ants.getD j dfltAnt).facetsValues
          = (rd.tasks.getD j dfltTask).FacetsValue) := by
  obtain ⟨hants, _, _, _, _⟩ := setupAnts_spec rd
  have hlen : (setupAnts rd).ants.length = rd.numberOfAnts := by
    rw [hants, List.length_map, List.length_range]
  refine ⟨hlen, ?_, ?_⟩
  · intro a ha
    rw [hants] at ha
    rw [List.mem_map] at ha
    obtain ⟨t, _, hta⟩ := ha
    rw [← hta]
    rfl
  · intro hn0 j hj
    rw [hlen] at hj
    rw [hants, getD_map_range _ _ _ _ hj]
    exact ⟨placedAnt_inv _ _ _ (Nat.mod_lt _ hn0), rfl⟩

end SetupLemmas

section ConstructorLemmas

/-- Entry-wise value of the cost matrix written by
`generateDistanceMatrix`. -/
theorem generateDistanceMatrix_eval (rd : RouteDiscovery) (a b : Nat) :
    (generateDistanceMatrix rd).distances a b
      = if a < rd.numberOfCities ∧ b < rd.numberOfCities then
          (if a = b then 0 else (rd.tasks.getD a dfltTask).FacetsValue.Latency)
        else rd.distances a b := by
  show ((List.range rd.numberOfCities).foldl _ rd.distances) a b = _
  rw [foldl_setM_sq]

/-- Entry-wise value of the pheromone matrix written by `clearTrails`. -/
theorem clearTrails_eval (rd : RouteDiscovery) (a b : Nat) :
    (clearTrails rd).pheromones a b
      = if a < rd.numberOfCities ∧ b < rd.numberOfCities then rd.initialPheromone
        else rd.pheromones a b := by
  show ((List.range rd.numberOfCities).foldl _ rd.pheromones) a b = _
  rw [foldl_setM_sq]

/-- The constructed engine's fields: hard-coded configuration constants,
city and ant counts from the distinct-task count, empty ant slice, no best
tour, the caller's random source. -/
theorem NewRD_fields (tasks : List AllocatedTaskInfo) (rnd : RandSrc) :
    (NewRouteDiscovery tasks rnd).tasks = tasks ∧
    (NewRouteDiscovery tasks rnd).numberOfCities = getTotalCities tasks ∧
    (NewRouteDiscovery tasks rnd).numberOfAnts = getTotalCities tasks ∧
    (NewRouteDiscovery tasks rnd).alpha = 1 ∧
    (NewRouteDiscovery tasks rnd).beta = 5 ∧
    (NewRouteDiscovery tasks rnd).initialPheromone = 1 ∧
    (NewRouteDiscovery tasks rnd).remainingFactor = 1/2 ∧
    (NewRouteDiscovery tasks rnd).q = 500 ∧
    (NewRouteDiscovery tasks rnd).randomFactor = 1/100 ∧
    (NewRouteDiscovery tasks rnd).maxIterations = 1000 ∧
    (NewRouteDiscovery tasks rnd).ants = [] ∧
    (NewRouteDiscovery tasks rnd).random = rnd ∧
    (NewRouteDiscovery tasks rnd).currentIndex = 0 ∧
    (NewRouteDiscovery tasks rnd).bestTourOrder = none ∧
    (NewRouteDiscovery tasks rnd).bestTourLength = 0 :=
  ⟨rfl, rfl, rfl, rfl, rfl, rfl, rfl, rfl, rfl, rfl, rfl, rfl, rfl, rfl, rfl⟩

/-- The constructed engine's cost matrix, in range: zero diagonal, source
task's latency elsewhere. -/
theorem NewRD_distances (tasks : List AllocatedTaskInfo) (rnd : RandSrc) (a b : Nat)
    (ha : a < getTotalCities tasks) (hb : b < getTotalCities tasks) :
    (NewRouteDiscovery tasks rnd).distances a b
      = if a = b then 0 else (tasks.getD a dfltTask).FacetsValue.Latency := by
  show (generateDistanceMatrix (initRouteDiscovery tasks rnd)).distances a b = _
  rw [generateDistanceMatrix_eval]
  rw [if_pos ⟨ha, hb⟩]
  rfl

/-- The constructed engine's pheromone matrix, in range: the initial
constant `1` everywhere. -/
theorem NewRD_pheromones (tasks : List AllocatedTaskInfo) (rnd : RandSrc) (a b : Nat) :
    (NewRouteDiscovery tasks rnd).pheromones a b
      = if a < getTotalCities tasks ∧ b < getTotalCities tasks then 1 else 0 := by
  show (clearTrails (generateDistanceMatrix (initRouteDiscovery tasks rnd))).pheromones a b = _
  rw [clearTrails_eval]
  rfl

end ConstructorLemmas

section ClaimSupport

/-- One iteration completes every ant's trail: from any step index at most
`n - 1`, the trails are at step `n - 1` afterwards and `currentIndex`
rests at `n - 1`. -/
theorem iterBody_inv (n : Nat) (hn1 : 1 ≤ n) (rd rd1 : RouteDiscovery)
    (hants : ∀ j, j < rd.ants.length → AntInv n rd.currentIndex (rd.ants.getD j dfltAnt))
    (hci : rd.currentIndex ≤ n - 1) (hn : rd.numberOfCities = n)
    (hfl : ∀ t, 0 < rd.random.floats t)
    (h : iterBody rd = some rd1) :
    (∀ j, j < rd1.ants.length → AntInv n (n - 1) (rd1.ants.getD j dfltAnt)) ∧
    rd1.currentIndex = n - 1 := by
  obtain ⟨rdM, hmv, hub, _, _, _, _, _, _, hAnts, hCi, _, _, _, _⟩ :=
    iterBody_factor rd rd1 h
  obtain ⟨_, hinvM, hciM, _, _⟩ := moveAnts_inv n rd rdM hants hn hfl hci hn1 hmv
  constructor
  · intro j hj
    rw [hAnts] at hj ⊢
    exact hinvM j hj
  · rw [hCi, hciM]

/-- Once every trail is complete, further iterations keep trails complete
(the `moveAnts` loop body no longer runs) and `currentIndex` parked at
`n - 1`. -/
theorem runLoop_perm (n : Nat) (hn1 : 1 ≤ n) :
    ∀ (mm : Nat) (rd rd' : RouteDiscovery),
      (∀ j, j < rd.ants.length → AntInv n rd.currentIndex (rd.ants.getD j dfltAnt)) →
      rd.currentIndex ≤ n - 1 → rd.numberOfCities = n →
      (∀ t, 0 < rd.random.floats t) → 1 ≤ mm →
      runLoop mm rd = some rd' →
      (∀ j, j < rd'.ants.length → AntInv n (n - 1) (rd'.ants.getD j dfltAnt)) ∧
      rd'.currentIndex = n - 1 := by
  intro mm
  induction mm with
  | zero => intro rd rd' _ _ _ _ hm; omega
  | succ mm ih =>
    intro rd rd' hants hci hn hfl _ h
    rw [runLoop] at h
    rcases hit : iterBody rd with _ | rd1
    · rw [hit] at h; exact absurd h (by simp)
    · rw [hit] at h
      simp only [Option.some_bind] at h
      have hstep := iterBody_inv n hn1 rd rd1 hants hci hn hfl hit
      obtain ⟨hinv1, hci1⟩ := hstep
      obtain ⟨hcfg1, hf1, _, _⟩ := iterBody_shape rd rd1 hit
      rcases Nat.eq_zero_or_pos mm with hmm | hmm
      · subst hmm
        rw [runLoop] at h
        injection h with h2
        subst h2
        exact ⟨hinv1, hci1⟩
      · refine ih rd1 rd' (fun j hj => ?_) (by omega) (by rw [hcfg1.2.2.2.2.2.2.2.2.2.1]; exact hn)
          (by rw [hf1]; exact hfl) hmm h
        rw [hci1]
        exact hinv1 j hj

/-- Best-tour monotonicity and some-ness through any number of
iterations, once a best tour is recorded. -/
theorem runLoop_best_mono :
    ∀ (m : Nat) (rd rd' : RouteDiscovery) (o : List Nat),
      rd.bestTourOrder = some o → runLoop m rd = some rd' →
      (∃ o', rd'.bestTourOrder = some o') ∧ rd'.bestTourLength ≤ rd.bestTourLength := by
  intro m
  induction m with
  | zero =>
    intro rd rd' o ho h
    rw [runLoop] at h
    injection h with h2
    subst h2
    exact ⟨⟨o, ho⟩, le_refl _⟩
  | succ m ih =>
    intro rd rd' o ho h
    rw [runLoop] at h
    rcases hit : iterBody rd with _ | rd1
    · rw [hit] at h; exact absurd h (by simp)
    · rw [hit] at h
      simp only [Option.some_bind] at h
      obtain ⟨rdM, hmv, hub, _, hbO, hbL, _, _, _, _, _, _, _, _, _⟩ :=
        iterBody_factor rd rd1 hit
      have hTo : (updateTrails rdM).bestTourOrder = some o := by
        show rdM.bestTourOrder = some o
        rw [hbO]; exact ho
      obtain ⟨hle1, hsome1, _⟩ := updateBest_le _ _ o hTo hub
      obtain ⟨o1, ho1⟩ := hsome1
      obtain ⟨hsome', hle'⟩ := ih rd1 rd' o1 ho1 h
      refine ⟨hsome', le_trans hle' ?_⟩
      have hL : (updateTrails rdM).bestTourLength = rd.bestTourLength := by
        show rdM.bestTourLength = rd.bestTourLength
        exact hbL
      rw [← hL]
      exact hle1

/-- One iteration's best update: the recorded best length never increases,
and the recorded tour changes only when some ant of the iteration's
population beats the entry best strictly. -/
theorem iterBody_best (rd rd1 : RouteDiscovery) (o : List Nat)
    (ho : rd.bestTourOrder = some o) (h : iterBody rd = some rd1) :
    rd1.bestTourLength ≤ rd.bestTourLength ∧
    (rd1.bestTourOrder ≠ some o → ∃ a ∈ rd1.ants, a.tourLength < rd.bestTourLength) := by
  obtain ⟨rdM, hmv, hub, _, hbO, hbL, _, _, _, hAnts, _, _, _, _, _⟩ :=
    iterBody_factor rd rd1 h
  have hTo : (updateTrails rdM).bestTourOrder = some o := by
    show rdM.bestTourOrder = some o
    rw [hbO]; exact ho
  obtain ⟨hle1, _, hstrict⟩ := updateBest_le _ _ o hTo hub
  have hL : (updateTrails rdM).bestTourLength = rd.bestTourLength := by
    show rdM.bestTourLength = rd.bestTourLength
    exact hbL
  constructor
  · rw [← hL]
    exact hle1
  · intro hne
    obtain ⟨a, ha, halt⟩ := hstrict hne
    refine ⟨a, ?_, by rw [← hL]; exact halt⟩
    rw [hAnts]
    exact ha

/-- Pheromone non-negativity and zero tour lengths are preserved by any
number of iterations. -/
theorem runLoop_nonneg :
    ∀ (m : Nat) (rd rd' : RouteDiscovery),
      (∀ a b, 0 ≤ rd.pheromones a b) → (∀ ant ∈ rd.ants, ant.tourLength = 0) →
      0 ≤ rd.q → 0 ≤ rd.remainingFactor →
      runLoop m rd = some rd' →
      (∀ a b, 0 ≤ rd'.pheromones a b) ∧ (∀ ant ∈ rd'.ants, ant.tourLength = 0) := by
  intro m
  induction m with
  | zero =>
    intro rd rd' hph hz _ _ h
    rw [runLoop] at h
    injection h with h2
    subst h2
    exact ⟨hph, hz⟩
  | succ m ih =>
    intro rd rd' hph hz hq hrf h
    rw [runLoop] at h
    rcases hit : iterBody rd with _ | rd1
    · rw [hit] at h; exact absurd h (by simp)
    · rw [hit] at h
      simp only [Option.some_bind] at h
      obtain ⟨rdM, hmv, hub, hphM, _, _, hlenM, htM, hph1, hAnts1, _, hqM, hrfM, _, _⟩ :=
        iterBody_factor rd rd1 hit
      have hzM : ∀ ant ∈ rdM.ants, ant.tourLength = 0 :=
        tourLength_zero_transport rd.ants rdM.ants hlenM htM hz
      have hphM' : ∀ a b, 0 ≤ rdM.pheromones a b := by
        intro a b; rw [hphM]; exact hph a b
      have hnn1 : ∀ a b, 0 ≤ rd1.pheromones a b := by
        intro a b
        rw [hph1]
        exact updateTrails_nonneg rdM hphM' (by rw [hrfM]; exact hrf)
          (by rw [hqM]; exact hq)
          (fun ant hant => le_of_eq (hzM ant hant).symm) a b
      have hz1 : ∀ ant ∈ rd1.ants, ant.tourLength = 0 := by
        intro ant hant
        rw [hAnts1] at hant
        exact hzM ant hant
      obtain ⟨hcfg, _, _, _⟩ := iterBody_shape rd rd1 hit
      exact ih rd1 rd' hnn1 hz1 (by rw [hcfg.2.2.2.2.2.2.1]; exact hq)
        (by rw [hcfg.2.2.2.2.2.1]; exact hrf) h

end ClaimSupport

section PriorityLemmas

/-- The priority fold over distinct task identifiers, with an accumulator
containing none of them, appends identifier/rank pairs in trail order. -/
theorem priority_fold (l : List Nat) :
    ∀ (acc : List (Nat × Nat)) (p : Nat),
      l.Nodup →
      (∀ k ∈ l, acc.any (fun q => q.1 == k) = false) →
      (l.foldl (fun acc taskID => (mapInsert acc.1 taskID acc.2, acc.2 + 1)) (acc, p))
        = (acc ++ l.zip (List.range' p l.length), p + l.length) := by
  induction l with
  | nil =>
    intro acc p _ _
    simp
  | cons k l ih =>
    intro acc p hnd hdisj
    rw [List.foldl_cons]
    have hknot : acc.any (fun q => q.1 == k) = false :=
      hdisj k (List.mem_cons_self _ _)
    have hbody : (mapInsert acc k p, p + 1)
        = ((acc ++ [(k, p)] : List (Nat × Nat)), p + 1) := by
      rw [mapInsert, if_neg]
      rw [hknot]
      exact Bool.false_ne_true
    show (l.foldl _ (mapInsert acc k p, p + 1)) = _
    rw [hbody]
    rw [ih (acc ++ [(k, p)]) (p + 1) (List.nodup_cons.mp hnd).2 ?_]
    · refine Prod.ext ?_ ?_
      · show (acc ++ [(k, p)]) ++ l.zip (List.range' (p + 1) l.length)
          = acc ++ (k :: l).zip (List.range' p (k :: l).length)
        rw [List.append_assoc, List.singleton_append, List.length_cons,
          List.range'_succ p l.length 1]
        rfl
      · show p + 1 + l.length = p + (k :: l).length
        rw [List.length_cons]
        omega
    · intro k2 hk2
      rw [List.any_append]
      have h1 : acc.any (fun q => q.1 == k2) = false :=
        hdisj k2 (List.mem_cons_of_mem _ hk2)
      have hkk : k ≠ k2 := by
        intro hh
        exact (List.nodup_cons.mp hnd).1 (hh ▸ hk2)
      have h2 : ([(k, p)] : List (Nat × Nat)).any (fun q => q.1 == k2) = false := by
        simp [hkk]
      rw [h1, h2]
      rfl

/-- `getPriorityMap` of a recorded best tour with distinct entries is
exactly the trail zipped with the ranks `1 .. N`. -/
theorem getPriorityMap_eq (rd : RouteDiscovery) (o : List Nat)
    (ho : rd.bestTourOrder = some o) (hnd : o.Nodup) :
    getPriorityMap rd = o.zip (List.range' 1 o.length) := by
  rw [getPriorityMap, ho]
  show (o.foldl _ ([], 1)).1 = _
  rw [priority_fold o [] 1 hnd (fun k _ => rfl)]
  rw [List.nil_append]

/-- Rank lookup in the zipped priority map: the `j`-th trail city maps to
rank `p + j`. -/
theorem zip_lookup (l : List Nat) :
    ∀ (p j : Nat), l.Nodup → j < l.length →
      mapLookup (l.zip (List.range' p l.length)) (l.getD j 0) = some (p + j) := by
  induction l with
  | nil => intro p j _ hj; simp at hj
  | cons c rest ih =>
    intro p j hnd hj
    rw [List.length_cons, List.range'_succ p rest.length 1]
    show mapLookup ((c, p) :: rest.zip (List.range' (p + 1) rest.length)) _ = _
    cases j with
    | zero =>
      rw [List.getD_cons_zero]
      rw [mapLookup, List.find?_cons_of_pos _ (by simp)]
      rfl
    | succ t =>
      rw [List.getD_cons_succ]
      have ht : t < rest.length := by
        rw [List.length_cons] at hj
        omega
      have hmem : rest.getD t 0 ∈ rest := by
        rw [List.getD_eq_getElem _ _ ht]
        exact List.getElem_mem ht
      have hne : c ≠ rest.getD t 0 := by
        intro hh
        exact (List.nodup_cons.mp hnd).1 (hh ▸ hmem)
      rw [mapLookup, List.find?_cons_of_neg _ (by simp only [beq_iff_eq]; exact hne)]
      show mapLookup (rest.zip (List.range' (p + 1) rest.length)) (rest.getD t 0) = _
      rw [ih (p + 1) t (List.nodup_cons.mp hnd).2 ht]
      congr 1
      omega

end PriorityLemmas

section Claims

set_option maxHeartbeats 1000000 in
/-- C1: the claim says each ant's `tourLength` equals the cost of its
closed tour (edges along the trail plus the closing edge) before
`updateTrails` and `updateBest` read it.  The code never calls
`calculateTourLength` — no step of the `InitiateOptimization` loop writes
`tourLength` — so in the state handed to `updateTrails` every ant's
`tourLength` is still the zero value: on the two-task input with
latencies 3 and 4, the completed trail `[0, 1]` has closed-tour cost
`3 + 4 = 7` (as the unused source function `calculateTourLength`
confirms), yet the ant's `tourLength` is `0`.  In Go, `updateTrails` then
computes `contribution = q / 0 = +Inf`. -/
theorem C1_tourLength_stale :
    moveAnts st2 = some st2m ∧
    st2.numberOfCities = 2 ∧
    st2m.currentIndex = st2.numberOfCities - 1 ∧
    (st2m.ants.getD 0 dfltAnt).trail = [0, 1] ∧
    (st2m.ants.getD 1 dfltAnt).trail = [0, 1] ∧
    (st2m.ants.getD 0 dfltAnt).tourLength = 0 ∧
    (calculateTourLength st2m.distances (st2m.ants.getD 0 dfltAnt)).tourLength = 7 := by
  refine ⟨by with_unfolding_all rfl, rfl, ?_, ?_, ?_, ?_, ?_⟩ <;>
    with_unfolding_all rfl

/-- C2 counterexample: the claim says `cost[i][j]` is the latency facet of
the destination task `j`.  With two tasks of latencies 3 and 4, the code
sets `cost[0][1]` to `3` — the latency of the source task `0`, not the
destination task's `4`. -/
theorem C2_counterexample :
    (NewRouteDiscovery exTasks2 rndHalf).distances 0 1 = 3 ∧
    (exTasks2.getD 1 dfltTask).FacetsValue.Latency = 4 ∧
    (NewRouteDiscovery exTasks2 rndHalf).distances 0 1
      ≠ (exTasks2.getD 1 dfltTask).FacetsValue.Latency := by
  refine ⟨by with_unfolding_all rfl, by with_unfolding_all rfl, ?_⟩
  exact of_decide_eq_true (by with_unfolding_all rfl)

/-- C2 (amended): after initialization, for `i, j` below the city count,
`cost[i][j]` equals the Latency facet of the SOURCE task `i` when
`i ≠ j`, and every diagonal entry is zero. -/
theorem C2_cost_from_source_latency (tasks : List AllocatedTaskInfo) (rnd : RandSrc)
    (i j : Nat) (hi : i < getTotalCities tasks) (hj : j < getTotalCities tasks) :
    (NewRouteDiscovery tasks rnd).distances i j
      = if i = j then 0 else (tasks.getD i dfltTask).FacetsValue.Latency :=
  NewRD_distances tasks rnd i j hi hj

/-- C2 witness: the amended statement evaluated on the two-task input. -/
theorem C2_witness :
    (NewRouteDiscovery exTasks2 rndHalf).distances 0 1
      = if (0 : Nat) = 1 then 0 else (exTasks2.getD 0 dfltTask).FacetsValue.Latency :=
  C2_cost_from_source_latency exTasks2 rndHalf 0 1
    (of_decide_eq_true (by with_unfolding_all rfl))
    (of_decide_eq_true (by with_unfolding_all rfl))

set_option maxHeartbeats 1000000 in
/-- C3 counterexample: the claim says the ant population is recreated at
the start of every iteration (fresh membership set holding only the start
city), that all ants share one facet-weighting, and that every iteration
performs `numberOfCities - 1` construction steps per ant.  On the two-city
run: at the start of iteration 2 the ants still have BOTH cities visited
(never recreated), iteration 2 consumes no random draws (the draw cursors
still read 4, as after iteration 1) and leaves trail and `currentIndex`
untouched (no construction steps), and on a two-task input with different
CPU facets the two ants carry different facet records (CPU 1 vs 2). -/
theorem C3_counterexample :
    runLoop 1 st2 = some st2r1 ∧ runLoop 2 st2 = some st2r2 ∧
    (st2r1.ants.getD 0 dfltAnt).visited 0 = true ∧
    (st2r1.ants.getD 0 dfltAnt).visited 1 = true ∧
    st2r1.random.ii = 4 ∧ st2r1.random.fi = 4 ∧
    st2r2.random.ii = 4 ∧ st2r2.random.fi = 4 ∧
    (st2r1.ants.getD 0 dfltAnt).trail = [0, 1] ∧
    (st2r2.ants.getD 0 dfltAnt).trail = [0, 1] ∧
    st2r1.currentIndex = 1 ∧ st2r2.currentIndex = 1 ∧
    ((setupAnts (NewRouteDiscovery exTasks2F rndHalf)).ants.getD 0 dfltAnt).facetsValues.CPU = 1 ∧
    ((setupAnts (NewRouteDiscovery exTasks2F rndHalf)).ants.getD 1 dfltAnt).facetsValues.CPU = 2 := by
  refine ⟨by with_unfolding_all rfl, by with_unfolding_all rfl, ?_, ?_, ?_, ?_,
    ?_, ?_, ?_, ?_, ?_, ?_, ?_, ?_⟩
  · with_unfolding_all rfl
  · with_unfolding_all rfl
  · with_unfolding_all rfl
  · with_unfolding_all rfl
  · with_unfolding_all rfl
  · with_unfolding_all rfl
  · with_unfolding_all rfl
  · with_unfolding_all rfl
  · with_unfolding_all rfl
  · with_unfolding_all rfl
  · with_unfolding_all rfl
  · with_unfolding_all rfl

/-- C3 (amended): the population is created once, by `setupAnts`, before
the iteration loop: it holds `numberOfAnts` ants, ant `j` carrying task
`j`'s facet values (not one shared weighting), each ant starting with
exactly one visited city — its randomly drawn start.  Construction steps
run only until `currentIndex` reaches `numberOfCities - 1` (i.e. during
the first iteration); `currentIndex` is never reset, so from then on
`moveAnts` does nothing and every later iteration leaves the ants and the
random source untouched. -/
theorem C3_population_created_once (rd : RouteDiscovery) :
    ((setupAnts rd).ants.length = rd.numberOfAnts ∧
     (0 < rd.numberOfCities → ∀ j, j < (setupAnts rd).ants.length →
        ((setupAnts rd).ants.getD j dfltAnt).facetsValues
          = (rd.tasks.getD j dfltTask).FacetsValue ∧
        ∃ c, c < rd.numberOfCities ∧
          ∀ d, ((setupAnts rd).ants.getD j dfltAnt).visited d = true ↔ d = c)) ∧
    (rd.numberOfCities - 1 ≤ rd.currentIndex → moveAnts rd = some rd) ∧
    (∀ rd1, rd.currentIndex = rd.numberOfCities - 1 → iterBody rd = some rd1 →
       rd1.ants = rd.ants ∧ rd1.random = rd.random) := by
  obtain ⟨hlen, _, hinv⟩ := setupAnts_inv rd
  refine ⟨⟨hlen, ?_⟩, ?_, ?_⟩
  · intro hn0 j hj
    obtain ⟨hai, hfac⟩ := hinv hn0 j hj
    obtain ⟨_, _, _, _, hvis⟩ := hai
    refine ⟨hfac, ?_⟩
    obtain ⟨hants, _, _, _, _⟩ := setupAnts_spec rd
    rw [hlen] at hj
    refine ⟨rd.random.ints (rd.random.ii + j) % rd.numberOfCities,
      Nat.mod_lt _ hn0, ?_⟩
    intro d
    rw [hvis d]
    rw [hants, getD_map_range _ _ _ _ hj]
    show d ∈ (((List.replicate rd.numberOfCities 0).set ((-1 : Int) + 1).toNat
      (rd.random.ints (rd.random.ii + j) % rd.numberOfCities)).take (0 + 1)) ↔ _
    have htoNat : ((-1 : Int) + 1).toNat = 0 := by decide
    rw [htoNat]
    have htake := take_set_succ (List.replicate rd.numberOfCities (0 : Nat)) 0
      (rd.random.ints (rd.random.ii + j) % rd.numberOfCities)
      (by rw [List.length_replicate]; exact Nat.pos_of_ne_zero (by omega))
    simp only [List.take_zero, List.nil_append] at htake
    rw [htake]
    exact List.mem_singleton
  · intro hci
    rw [moveAnts]
    have hz : rd.numberOfCities - 1 - rd.currentIndex = 0 := by omega
    rw [hz]
    rfl
  · intro rd1 hci h
    obtain ⟨rdM, hmv, hub, _, _, _, _, _, _, hAnts, _, _, _, _, _⟩ :=
      iterBody_factor rd rd1 h
    have hnoop : moveAnts rd = some rd := by
      rw [moveAnts]
      have hz : rd.numberOfCities - 1 - rd.currentIndex = 0 := by omega
      rw [hz]
      rfl
    rw [hnoop] at hmv
    injection hmv with hmv2
    subst hmv2
    refine ⟨by rw [hAnts], ?_⟩
    have hsh := updateBest_shape _ _ hub
    rw [hsh]
    rfl

set_option maxHeartbeats 1000000 in
/-- C3 witness: the amended statement's pieces evaluated on concrete
engines — a freshly set-up two-ant population's facets, a parked
`moveAnts` after the first iteration, and a second iteration that changes
neither ants nor random source. -/
theorem C3_witness :
    ((setupAnts (NewRouteDiscovery exTasks2F rndHalf)).ants.getD 0 dfltAnt).facetsValues
      = ((NewRouteDiscovery exTasks2F rndHalf).tasks.getD 0 dfltTask).FacetsValue ∧
    moveAnts st2r1 = some st2r1 ∧
    ((iterBody st2r1).getD (initRouteDiscovery [] rndHalf)).ants = st2r1.ants ∧
    ((iterBody st2r1).getD (initRouteDiscovery [] rndHalf)).random = st2r1.random := by
  have hit := (C3_population_created_once st2r1).2.2
    ((iterBody st2r1).getD (initRouteDiscovery [] rndHalf))
    (of_decide_eq_true (by with_unfolding_all rfl))
    (by with_unfolding_all rfl)
  refine ⟨((C3_population_created_once (NewRouteDiscovery exTasks2F rndHalf)).1.2
    (of_decide_eq_true (by with_unfolding_all rfl)) 0
    (of_decide_eq_true (by with_unfolding_all rfl))).1, ?_, hit.1, hit.2⟩
  exact (C3_population_created_once st2r1).2.1
    (of_decide_eq_true (by with_unfolding_all rfl))

/-- C4 counterexample: the claim says `Initialize` on an empty task list
fails with `InvalidInput` and does not construct an engine.  The
constructor has no failure path: on `[]` it returns a fully initialized
engine with zero cities, zero ants and the default configuration. -/
theorem C4_counterexample :
    (NewRouteDiscovery [] rndHalf).numberOfCities = 0 ∧
    (NewRouteDiscovery [] rndHalf).numberOfAnts = 0 ∧
    (NewRouteDiscovery [] rndHalf).tasks = [] ∧
    (NewRouteDiscovery [] rndHalf).maxIterations = 1000 :=
  ⟨rfl, rfl, rfl, rfl⟩

/-- C4 (amended): `NewRouteDiscovery` performs no input validation and
cannot fail: applied to an empty task list it still constructs an engine —
zero cities and ants, the default constants, no recorded best tour.  There
is no `InvalidInput` condition; no prior state exists to be touched, a
fresh engine value is returned. -/
theorem C4_empty_input_constructs_engine (rnd : RandSrc) :
    (NewRouteDiscovery [] rnd).numberOfCities = 0 ∧
    (NewRouteDiscovery [] rnd).numberOfAnts = 0 ∧
    (NewRouteDiscovery [] rnd).ants = [] ∧
    (NewRouteDiscovery [] rnd).bestTourOrder = none ∧
    (NewRouteDiscovery [] rnd).maxIterations = 1000 ∧
    (NewRouteDiscovery [] rnd).initialPheromone = 1 ∧
    (NewRouteDiscovery [] rnd).random = rnd :=
  ⟨rfl, rfl, rfl, rfl, rfl, rfl, rfl⟩

/-- C5 counterexample: the claim says `BestPriorityMap` fails with
`NotReady` before a complete iteration has run.  The code has no readiness
check: on a fresh two-task engine (`bestTourOrder` still nil) it returns a
map — the empty one. -/
theorem C5_counterexample :
    (NewRouteDiscovery exTasks2 rndHalf).bestTourOrder = none ∧
    getPriorityMap (NewRouteDiscovery exTasks2 rndHalf) = [] :=
  ⟨rfl, rfl⟩

/-- C5 (amended): `getPriorityMap` performs no readiness check and never
fails: called before any complete iteration, `bestTourOrder` is nil, so
the loop body runs zero times and the empty map is returned — there is no
`NotReady` condition. -/
theorem C5_empty_map_before_first_iteration (tasks : List AllocatedTaskInfo)
    (rnd : RandSrc) :
    (NewRouteDiscovery tasks rnd).bestTourOrder = none ∧
    getPriorityMap (NewRouteDiscovery tasks rnd) = [] :=
  ⟨rfl, rfl⟩

set_option maxHeartbeats 1000000 in
/-- C6 counterexample: the claim says every completed trail is a
permutation of the city indices.  Go's `Float64` can return exactly `0`;
when a roulette draw is `0` the cumulative scan stops at index 0 even
though its probability is `0` (it is already visited).  On the three-task
run whose roulette draws are all `0`, construction completes with trail
`[0, 0, 0]`: full length, city 0 repeated, cities 1 and 2 omitted. -/
theorem C6_counterexample :
    moveAnts st3z = some st3zm ∧
    st3zm.numberOfCities = 3 ∧
    (st3zm.ants.getD 0 dfltAnt).trail = [0, 0, 0] ∧
    ¬(st3zm.ants.getD 0 dfltAnt).trail.Nodup ∧
    (1 : Nat) ∉ (st3zm.ants.getD 0 dfltAnt).trail := by
  refine ⟨by with_unfolding_all rfl, by with_unfolding_all rfl, ?_, ?_, ?_⟩
  · with_unfolding_all rfl
  · exact of_decide_eq_true (by with_unfolding_all rfl)
  · exact of_decide_eq_true (by with_unfolding_all rfl)

/-- C6 (amended): provided every `Float64` draw of the stream is strictly
positive (ruling out the draw-0 edge case above), after any positive
number of iterations every ant of the run holds a completed trail that is
a permutation of `0 .. numberOfCities - 1`: full length, no city repeated,
none omitted. -/
theorem C6_completed_trails_are_permutations (tasks : List AllocatedTaskInfo)
    (rnd : RandSrc) (m : Nat) (rd' : RouteDiscovery)
    (hfl : ∀ t, 0 < rnd.floats t) (hm : 1 ≤ m)
    (h : runLoop m (clearTrails (setupAnts (NewRouteDiscovery tasks rnd))) = some rd') :
    ∀ j, j < rd'.ants.length →
      completeTrailPerm (getTotalCities tasks) (rd'.ants.getD j dfltAnt) := by
  have hflst : ∀ t, 0 <
      (clearTrails (setupAnts (NewRouteDiscovery tasks rnd))).random.floats t := by
    intro t
    show 0 < (setupAnts (NewRouteDiscovery tasks rnd)).random.floats t
    rw [(setupAnts_spec (NewRouteDiscovery tasks rnd)).2.1]
    exact hfl t
  rcases Nat.eq_zero_or_pos (getTotalCities tasks) with hn | hn
  · intro j hj
    obtain ⟨_, _, hlen', _⟩ := runLoop_shape m _ rd' h
    rw [hlen'] at hj
    have hl0 : (clearTrails (setupAnts (NewRouteDiscovery tasks rnd))).ants.length = 0 := by
      show (setupAnts (NewRouteDiscovery tasks rnd)).ants.length = 0
      rw [(setupAnts_inv (NewRouteDiscovery tasks rnd)).1]
      show getTotalCities tasks = 0
      exact hn
    rw [hl0] at hj
    omega
  · obtain ⟨hlen, _, hinv⟩ := setupAnts_inv (NewRouteDiscovery tasks rnd)
    have hperm := runLoop_perm (getTotalCities tasks) hn m
      (clearTrails (setupAnts (NewRouteDiscovery tasks rnd))) rd'
      (fun j hj => by
        show AntInv (getTotalCities tasks) 0 _
        exact (hinv hn j hj).1)
      (by show (0 : Nat) ≤ getTotalCities tasks - 1; omega)
      rfl hflst hm h
    intro j hj
    exact antInv_complete _ _ (hperm.1 j hj)

set_option maxHeartbeats 1000000 in
/-- C6 witness: on the two-task run with all draws `1/2`, after one
iteration both completed trails are permutations of `{0, 1}`. -/
theorem C6_witness :
    completeTrailPerm (getTotalCities exTasks2) (st2r1.ants.getD 0 dfltAnt) :=
  C6_completed_trails_are_permutations exTasks2 rndHalf 1 st2r1
    (fun t => by show (0 : ℚ) < 1/2; norm_num)
    (by omega) (by with_unfolding_all rfl) 0
    (of_decide_eq_true (by with_unfolding_all rfl))

/-- C7: every pheromone entry is non-negative after initialization
(`clearTrails` writes the constant `1`, the zeroed matrix elsewhere) and
stays non-negative over any number of iterations of the optimization
loop: evaporation multiplies by `remainingFactor = 1/2 ≥ 0` and
reinforcement adds `q / tourLength` with `q = 500` and `tourLength = 0`
throughout the run — a non-negative contribution both in this exact model
(`500 / 0 = 0` in `ℚ`) and in Go (`+Inf`). -/
theorem C7_pheromones_nonneg (tasks : List AllocatedTaskInfo) (rnd : RandSrc)
    (m : Nat) (rd' : RouteDiscovery)
    (h : runLoop m (clearTrails (setupAnts (NewRouteDiscovery tasks rnd))) = some rd') :
    (∀ a b, 0 ≤ (NewRouteDiscovery tasks rnd).pheromones a b) ∧
    (∀ a b, 0 ≤ (clearTrails (setupAnts (NewRouteDiscovery tasks rnd))).pheromones a b) ∧
    (∀ a b, 0 ≤ rd'.pheromones a b) := by
  have hinit : ∀ a b, 0 ≤ (NewRouteDiscovery tasks rnd).pheromones a b := by
    intro a b
    rw [NewRD_pheromones]
    split
    · norm_num
    · exact le_refl 0
  have hst : ∀ a b, 0 ≤
      (clearTrails (setupAnts (NewRouteDiscovery tasks rnd))).pheromones a b := by
    intro a b
    rw [clearTrails_eval]
    split
    · show (0 : ℚ) ≤ (1 : ℚ)
      norm_num
    · show 0 ≤ (setupAnts (NewRouteDiscovery tasks rnd)).pheromones a b
      exact hinit a b
  refine ⟨hinit, hst, ?_⟩
  have hz : ∀ ant ∈ (clearTrails (setupAnts (NewRouteDiscovery tasks rnd))).ants,
      ant.tourLength = 0 := by
    intro ant hant
    exact (setupAnts_inv (NewRouteDiscovery tasks rnd)).2.1 ant hant
  have hq : (0 : ℚ) ≤ (clearTrails (setupAnts (NewRouteDiscovery tasks rnd))).q := by
    show (0 : ℚ) ≤ (500 : ℚ)
    norm_num
  have hrf : (0 : ℚ) ≤
      (clearTrails (setupAnts (NewRouteDiscovery tasks rnd))).remainingFactor := by
    show (0 : ℚ) ≤ (1/2 : ℚ)
    norm_num
  exact (runLoop_nonneg m _ rd' hst hz hq hrf h).1

set_option maxHeartbeats 1000000 in
/-- C7 witness: the non-negativity statement evaluated on the two-task
run after one iteration. -/
theorem C7_witness :
    0 ≤ st2r1.pheromones 0 1 :=
  (C7_pheromones_nonneg exTasks2 rndHalf 1 st2r1 (by with_unfolding_all rfl)).2.2 0 1

/-- C8: once a best tour is recorded, its cost never increases over any
number of further iterations, and within one iteration the recorded tour
is replaced only when some ant of that iteration's population has a
`tourLength` strictly below the entry best cost.  (The Go replacement
branch copies the ant's trail with `make`/`copy`; under the value
semantics of this model the stored list is the copy.) -/
theorem C8_best_monotone (rd rd' rd1 : RouteDiscovery) (o : List Nat) (m : Nat)
    (ho : rd.bestTourOrder = some o)
    (hrun : runLoop m rd = some rd')
    (hit : iterBody rd = some rd1) :
    ((∃ o', rd'.bestTourOrder = some o') ∧ rd'.bestTourLength ≤ rd.bestTourLength) ∧
    (rd1.bestTourLength ≤ rd.bestTourLength ∧
     (rd1.bestTourOrder ≠ some o → ∃ a ∈ rd1.ants, a.tourLength < rd.bestTourLength)) :=
  ⟨runLoop_best_mono m rd rd' o ho hrun, iterBody_best rd rd1 o ho hit⟩

set_option maxHeartbeats 1000000 in
/-- C8 witness: the monotonicity statement evaluated on the two-task run,
from the state after the first iteration (best tour `[0, 1]`, cost 0)
through one more iteration. -/
theorem C8_witness :
    ((∃ o', ((iterBody st2r1).getD (initRouteDiscovery [] rndHalf)).bestTourOrder = some o') ∧
      ((iterBody st2r1).getD (initRouteDiscovery [] rndHalf)).bestTourLength ≤ st2r1.bestTourLength) ∧
    (((iterBody st2r1).getD (initRouteDiscovery [] rndHalf)).bestTourLength ≤ st2r1.bestTourLength ∧
     (((iterBody st2r1).getD (initRouteDiscovery [] rndHalf)).bestTourOrder ≠ some [0, 1] →
       ∃ a ∈ ((iterBody st2r1).getD (initRouteDiscovery [] rndHalf)).ants,
         a.tourLength < st2r1.bestTourLength)) := by
  have hib : iterBody st2r1 = some ((iterBody st2r1).getD (initRouteDiscovery [] rndHalf)) := by
    with_unfolding_all rfl
  have hrun : runLoop 1 st2r1 = some ((iterBody st2r1).getD (initRouteDiscovery [] rndHalf)) := by
    show (iterBody st2r1).bind (runLoop 0) = _
    rw [hib]
    rfl
  exact C8_best_monotone st2r1 ((iterBody st2r1).getD (initRouteDiscovery [] rndHalf))
    ((iterBody st2r1).getD (initRouteDiscovery [] rndHalf)) [0, 1] 1
    (by with_unfolding_all rfl) hrun hib

/-- C9: applied to a recorded best tour of `N` distinct cities, the
priority map holds exactly `N` entries, whose ranks are exactly
`1, 2, ..., N` in trail order; rank 1 goes to the tour's first city and
rank `N` to its last; and the function is pure — it depends only on
`bestTourOrder`, so equal best tours give equal maps. -/
theorem C9_priority_map (rd : RouteDiscovery) (o : List Nat) (N : Nat)
    (ho : rd.bestTourOrder = some o) (hnd : o.Nodup) (hlen : o.length = N)
    (hN : 1 ≤ N) :
    (getPriorityMap rd).length = N ∧
    (getPriorityMap rd).map Prod.snd = List.range' 1 N ∧
    (getPriorityMap rd).map Prod.fst = o ∧
    mapLookup (getPriorityMap rd) (o.getD 0 0) = some 1 ∧
    mapLookup (getPriorityMap rd) (o.getD (N - 1) 0) = some N ∧
    (∀ rd2 : RouteDiscovery, rd2.bestTourOrder = rd.bestTourOrder →
      getPriorityMap rd2 = getPriorityMap rd) := by
  have hmap := getPriorityMap_eq rd o ho hnd
  have hlr : (List.range' 1 o.length).length = o.length := List.length_range' ..
  refine ⟨?_, ?_, ?_, ?_, ?_, ?_⟩
  · rw [hmap, List.length_zip, hlr, hlen, Nat.min_self]
  · rw [hmap, List.map_snd_zip _ _ (by rw [hlr]), hlen]
  · rw [hmap, List.map_fst_zip _ _ (by rw [hlr])]
  · rw [hmap]
    have := zip_lookup o 1 0 hnd (by omega)
    rwa [Nat.add_zero] at this
  · rw [hmap]
    have := zip_lookup o 1 (N - 1) hnd (by omega)
    rwa [show 1 + (N - 1) = N by omega] at this
  · intro rd2 heq
    rw [getPriorityMap, getPriorityMap, heq]

set_option maxHeartbeats 1000000 in
/-- C9 witness: the priority-map statement evaluated on the two-task run
after one iteration, whose best tour is `[0, 1]`. -/
theorem C9_witness :
    (getPriorityMap st2r1).length = 2 ∧
    (getPriorityMap st2r1).map Prod.snd = List.range' 1 2 ∧
    (getPriorityMap st2r1).map Prod.fst = [0, 1] ∧
    mapLookup (getPriorityMap st2r1) (([0, 1] : List Nat).getD 0 0) = some 1 ∧
    mapLookup (getPriorityMap st2r1) (([0, 1] : List Nat).getD (2 - 1) 0) = some 2 ∧
    (∀ rd2 : RouteDiscovery, rd2.bestTourOrder = st2r1.bestTourOrder →
      getPriorityMap rd2 = getPriorityMap st2r1) :=
  C9_priority_map st2r1 [0, 1] 2 (by with_unfolding_all rfl)
    (of_decide_eq_true (by with_unfolding_all rfl))
    (of_decide_eq_true (by with_unfolding_all rfl))
    (by omega)

set_option maxHeartbeats 1000000 in
/-- C10 counterexample: the claim says that with probability
`randomFactor` the ant picks its next city uniformly at random among
exactly the unvisited cities, ignoring pheromone guidance.  On two
three-city engines identical in every respect — same ant (sitting on
visited city 0), same random stream, and an exploration coin `1/200`
strictly below `randomFactor = 1/100` — but differing only in the
pheromone matrix, the selected cities differ (city 1 vs city 2): the
exploration draw named the visited city 0, so the code fell through to
pheromone-guided roulette instead of re-drawing among the unvisited. -/
theorem C10_counterexample :
    stUA.random = stUB.random ∧
    stUA.ants = stUB.ants ∧
    stUA.randomFactor = stUB.randomFactor ∧
    stUA.random.floats stUA.random.fi < stUA.randomFactor ∧
    (selectNextCity stUA (stUA.ants.getD 0 dfltAnt)).map Prod.fst = some 1 ∧
    (selectNextCity stUB (stUB.ants.getD 0 dfltAnt)).map Prod.fst = some 2 := by
  refine ⟨rfl, rfl, rfl, ?_, ?_, ?_⟩
  · exact of_decide_eq_true (by with_unfolding_all rfl)
  · with_unfolding_all rfl
  · with_unfolding_all rfl

/-- C10 (amended): with probability `randomFactor` the engine draws one
index `t` uniformly on `{0, ..., numberOfCities - currentIndex - 1}`; the
exploration branch returns `t` only when `t` happens to be an unvisited
city index — otherwise (whenever `t` names a visited city, or whenever the
coin fails) selection falls through to the pheromone-guided roulette half;
there, `calculateProbabilities` gives every visited city probability zero
and every unvisited city its desirability divided by the unvisited total,
a distribution summing to exactly 1 whenever that total is nonzero, which
the roulette scan samples against one uniform draw. -/
theorem C10_selection (rd : RouteDiscovery) (ant : Ant) :
    (∀ t, t = rd.random.ints rd.random.ii % (rd.numberOfCities - rd.currentIndex) →
      rd.random.floats rd.random.fi < rd.randomFactor →
      t < rd.numberOfCities → ant.visited t = false →
      (selectNextCity rd ant).map Prod.fst = some t) ∧
    (∀ t, t = rd.random.ints rd.random.ii % (rd.numberOfCities - rd.currentIndex) →
      (¬rd.random.floats rd.random.fi < rd.randomFactor ∨
        ant.visited t = true ∨ rd.numberOfCities ≤ t) →
      selectNextCity rd ant =
        rouletteSelect { rd with random :=
          (rd.random.intn (rd.numberOfCities - rd.currentIndex)).2.float.2 } ant) ∧
    (∀ j, j < rd.numberOfCities →
      (ant.visited j = true → (calculateProbabilities rd ant).probabilities j = 0) ∧
      (ant.visited j = false → (calculateProbabilities rd ant).probabilities j
        = desirability rd ant (ant.trail.getD rd.currentIndex 0) j /
          pherSum rd ant (ant.trail.getD rd.currentIndex 0))) ∧
    (pherSum rd ant (ant.trail.getD rd.currentIndex 0) ≠ 0 →
      (Finset.range rd.numberOfCities).sum
        (calculateProbabilities rd ant).probabilities = 1) := by
  refine ⟨?_, ?_, ?_, ?_⟩
  · intro t ht hcoin hlt hnv
    rw [selectNextCity]
    split
    case h_1 i heq =>
      split at heq
      case isFalse => exact absurd heq (by simp)
      case isTrue =>
        have hp := List.find?_some heq
        simp only [Bool.and_eq_true, beq_iff_eq] at hp
        have hI : (rd.random.intn (rd.numberOfCities - rd.currentIndex)).1
            = rd.random.ints rd.random.ii % (rd.numberOfCities - rd.currentIndex) := rfl
        have hit2 : i = t := by rw [hp.1, hI, ← ht]
        rw [hit2]
        rfl
    case h_2 heq =>
      split at heq
      case isFalse hc => exact absurd hcoin hc
      case isTrue hc =>
        rw [List.find?_eq_none] at heq
        have hcontra := heq t (List.mem_range.mpr hlt)
        have htv : (t == (rd.random.intn (rd.numberOfCities - rd.currentIndex)).1 &&
            !ant.visited t) = true := by
          rw [hnv]
          show (t == rd.random.ints rd.random.ii % (rd.numberOfCities - rd.currentIndex) &&
            !false) = true
          rw [← ht]
          simp
        exact absurd htv hcontra
  · intro t ht hfall
    rw [selectNextCity]
    split
    case h_2 heq => rfl
    case h_1 i heq =>
      exfalso
      split at heq
      case isFalse => exact absurd heq (by simp)
      case isTrue hc =>
        have hp := List.find?_some heq
        simp only [Bool.and_eq_true, beq_iff_eq, Bool.not_eq_true'] at hp
        have hI : (rd.random.intn (rd.numberOfCities - rd.currentIndex)).1
            = rd.random.ints rd.random.ii % (rd.numberOfCities - rd.currentIndex) := rfl
        have hit2 : i = t := by rw [hp.1, hI, ← ht]
        rcases hfall with hcoin | hvis | hge
        · exact absurd hc hcoin
        · have h2 := hp.2
          rw [hit2, hvis] at h2
          simp at h2
        · have hmem := List.mem_of_find?_eq_some heq
          have hlt2 : i < rd.numberOfCities := List.mem_range.mp hmem
          rw [hit2] at hlt2
          omega
  · intro j hj
    constructor
    · intro hv
      rw [calcProb_probabilities, if_pos hj, hv]
      rfl
    · intro hnv
      rw [calcProb_probabilities, if_pos hj, hnv]
      rfl
  · intro hS
    have hsum : ∀ a, (calculateProbabilities rd ant).probabilities a
        = if a < rd.numberOfCities then
            (if ant.visited a then 0
             else desirability rd ant (ant.trail.getD rd.currentIndex 0) a /
                  pherSum rd ant (ant.trail.getD rd.currentIndex 0))
          else rd.probabilities a := calcProb_probabilities rd ant
    rw [Finset.sum_congr rfl (fun a ha => by
      rw [hsum a, if_pos (Finset.mem_range.mp ha)])]
    have hps : pherSum rd ant (ant.trail.getD rd.currentIndex 0)
        = (Finset.range rd.numberOfCities).sum (fun l =>
            if ant.visited l then 0
            else desirability rd ant (ant.trail.getD rd.currentIndex 0) l) := by
      rw [pherSum]
      have hfold : ∀ (k : Nat) (a0 : ℚ),
          (List.range k).foldl (fun acc l =>
            if ant.visited l then acc
            else acc + desirability rd ant (ant.trail.getD rd.currentIndex 0) l) a0
          = a0 + (Finset.range k).sum (fun l =>
              if ant.visited l then 0
              else desirability rd ant (ant.trail.getD rd.currentIndex 0) l) := by
        intro k
        induction k with
        | zero => intro a0; simp
        | succ k ih =>
          intro a0
          rw [List.range_succ, List.foldl_append, List.foldl_cons, List.foldl_nil,
            Finset.sum_range_succ, ih]
          split
          · rw [add_zero]
          · rw [add_assoc]
      rw [hfold rd.numberOfCities 0, zero_add]
    calc (Finset.range rd.numberOfCities).sum (fun a =>
            if ant.visited a then 0
            else desirability rd ant (ant.trail.getD rd.currentIndex 0) a /
              pherSum rd ant (ant.trail.getD rd.currentIndex 0))
        = (Finset.range rd.numberOfCities).sum (fun a =>
            (if ant.visited a then 0
             else desirability rd ant (ant.trail.getD rd.currentIndex 0) a) /
              pherSum rd ant (ant.trail.getD rd.currentIndex 0)) := by
          refine Finset.sum_congr rfl (fun a _ => ?_)
          split
          · rw [zero_div]
          · rfl
      _ = ((Finset.range rd.numberOfCities).sum (fun a =>
            if ant.visited a then 0
            else desirability rd ant (ant.trail.getD rd.currentIndex 0) a)) /
              pherSum rd ant (ant.trail.getD rd.currentIndex 0) := by
          rw [Finset.sum_div]
      _ = 1 := by
          rw [← hps]
          exact div_self hS

set_option maxHeartbeats 1000000 in
/-- C10 witness: the amended selection behaviour evaluated on concrete
three-city engines — an exploration hit returning the drawn unvisited
city 1, a zero probability for the visited city 0, and a probability sum
of exactly 1. -/
theorem C10_witness :
    (selectNextCity stUC (stUC.ants.getD 0 dfltAnt)).map Prod.fst = some 1 ∧
    (calculateProbabilities stUA (stUA.ants.getD 0 dfltAnt)).probabilities 0 = 0 ∧
    (Finset.range stUA.numberOfCities).sum
      (calculateProbabilities stUA (stUA.ants.getD 0 dfltAnt)).probabilities = 1 := by
  refine ⟨?_, ?_, ?_⟩
  · exact (C10_selection stUC (stUC.ants.getD 0 dfltAnt)).1 1
      (by with_unfolding_all rfl)
      (of_decide_eq_true (by with_unfolding_all rfl))
      (of_decide_eq_true (by with_unfolding_all rfl))
      (by with_unfolding_all rfl)
  · exact ((C10_selection stUA (stUA.ants.getD 0 dfltAnt)).2.2.1 0
      (of_decide_eq_true (by with_unfolding_all rfl))).1
      (by with_unfolding_all rfl)
  · exact (C10_selection stUA (stUA.ants.getD 0 dfltAnt)).2.2.2
      (of_decide_eq_true (by with_unfolding_all rfl))

end Claims
